import Mathlib

/-!
Verification development for the doc-mcp documentation retrieval service.

The definitions below are a shallow embedding of the TypeScript sources:
rate limiter (src/shared/rate-limiter.ts), Qdrant client wrapper
(src/shared/src/qdrant-client.ts), Voyage embedder (src/shared/src/embedder.ts),
language detection (src/mcp/src/rag/language-detect.ts), RAG searcher
(src/rag/searcher.ts), HTTP session dispatch (src/mcp/src/http.ts) and the
three chunkers (src/document/chunkers plus src/embed/src/document/chunkers/base.ts).

Modelling conventions: the ambient clock is threaded explicitly as an integer
millisecond timestamp; network calls are oracles passed in as functions;
JavaScript floating point arithmetic on integer-valued quantities is modelled
exactly over Int and Rat; JavaScript strings are modelled by Lean strings.
-/

namespace DocMcp

/-! ## JavaScript string and number helpers -/

/-- Whitespace class of the JavaScript regular expression escape backslash-s
and of the trim methods, restricted to the characters occurring here. -/
def isJsSpace (c : Char) : Bool :=
  c = ' ' || c = '\t' || c = '\n' || c = '\r' ||
  c = Char.ofNat 11 || c = Char.ofNat 12 || c = Char.ofNat 160

/-- Trim on a character list: drop whitespace at both ends. -/
def listTrim (l : List Char) : List Char :=
  ((l.dropWhile isJsSpace).reverse.dropWhile isJsSpace).reverse

/-- JavaScript String.prototype.trim. -/
def jsTrim (s : String) : String :=
  String.mk (listTrim s.data)

/-- JavaScript String.prototype.trimEnd. -/
def jsTrimEnd (s : String) : String :=
  String.mk (s.data.reverse.dropWhile isJsSpace).reverse

/-- List-level check that the second list starts with the first. -/
def charsStartWith : List Char → List Char → Bool
  | [], _ => true
  | _ :: _, [] => false
  | p :: ps, c :: cs => p = c && charsStartWith ps cs

/-- Does the pattern occur at character position k of the string. -/
def occursAt (s pat : String) (k : Nat) : Bool :=
  charsStartWith pat.data (s.data.drop k)

/-- Does the pattern occur anywhere in the string (String.prototype.includes). -/
def strIncludes (s pat : String) : Bool :=
  (List.range (s.length + 1)).any (occursAt s pat)

/-- JavaScript String.prototype.lastIndexOf with a fromIndex: the greatest
match position not exceeding the clamped fromIndex, or -1. -/
def lastIndexOfFrom (s pat : String) (fromIdx : Int) : Int :=
  let start : Nat := (min (max fromIdx 0) (s.length : Int)).toNat
  match (List.range (start + 1)).reverse.find? (occursAt s pat) with
  | some k => (k : Int)
  | none => -1

/-- JavaScript String.prototype.lastIndexOf without a fromIndex. -/
def lastIndexOfStr (s pat : String) : Int :=
  lastIndexOfFrom s pat (s.length : Int)

/-- JavaScript String.prototype.indexOf for a single character. -/
def indexOfChar (s : String) (c : Char) : Int :=
  match s.data.findIdx? (fun d => d = c) with
  | some k => (k : Int)
  | none => -1

/-- JavaScript String.prototype.slice with two signed indices:
negative indices count from the end, and both are clamped to the length. -/
def jsSlice (s : String) (start stop : Int) : String :=
  let len : Int := (s.length : Int)
  let a : Int := if start < 0 then max 0 (len + start) else min start len
  let b : Int := if stop < 0 then max 0 (len + stop) else min stop len
  String.mk ((s.data.take b.toNat).drop a.toNat)

/-- JavaScript String.prototype.slice with only a start index. -/
def jsSliceFrom (s : String) (start : Int) : String :=
  jsSlice s start (s.length : Int)

/-- Lower-casing used by the retryability test on error messages. -/
def jsToLower (s : String) : String :=
  String.mk (s.data.map Char.toLower)

/-- Split on the leftmost non-overlapping occurrences of a nonempty
separator, the semantics of String.prototype.split with a plain separator.
The fuel is the character count, which bounds the steps since every step
consumes at least one character. -/
def jsSplitGo (sep : List Char) : Nat → List Char → List Char → List (List Char)
  | 0, cur, _ => [cur.reverse]
  | fuel + 1, cur, l =>
    if l.isEmpty then [cur.reverse]
    else if charsStartWith sep l then
      cur.reverse :: jsSplitGo sep fuel [] (l.drop sep.length)
    else
      match l with
      | c :: rest => jsSplitGo sep fuel (c :: cur) rest
      | [] => [cur.reverse]

/-- JavaScript String.prototype.split with a nonempty string separator. -/
def jsSplitOn (s sep : String) : List String :=
  (jsSplitGo sep.data (s.length + 1) [] s.data).map String.mk

/-! ## Rate limiter (src/shared/rate-limiter.ts)

The sliding window keeps timestamped weighted entries; stale entries are
lazily evicted on every observation.  Date.now() is passed in as `now`. -/

/-- One entry of a sliding window: insertion timestamp and weight. -/
structure WindowEntry where
  timestamp : Int
  weight : Nat
deriving Repr, DecidableEq

/-- SlidingWindow.cleanup: keep the entries younger than one window. -/
def cleanupEntries (windowMs now : Int) (entries : List WindowEntry) : List WindowEntry :=
  entries.filter (fun e => now - windowMs < e.timestamp)

/-- SlidingWindow.getCount: total weight of the live entries. -/
def windowCount (windowMs now : Int) (entries : List WindowEntry) : Nat :=
  (cleanupEntries windowMs now entries).foldl (fun s e => s + e.weight) 0

/-- SlidingWindow.getEarliestTimestamp on the live entries. -/
def windowEarliest (windowMs now : Int) (entries : List WindowEntry) : Option Int :=
  (cleanupEntries windowMs now entries).head?.map (fun e => e.timestamp)

/-- SlidingWindow.tryAdd: evict stale entries and append the new one. -/
def windowAdd (windowMs now : Int) (entries : List WindowEntry) (weight : Nat) : List WindowEntry :=
  cleanupEntries windowMs now entries ++ [⟨now, weight⟩]

/-- RateLimiter.getRetryAfter: seconds until the earliest live entry leaves
the window, ceiled, floored at zero; zero when the window is empty. -/
def getRetryAfterSec (windowMs now : Int) (entries : List WindowEntry) : Nat :=
  match windowEarliest windowMs now entries with
  | none => 0
  | some earliest =>
    let waitMs : Int := earliest + windowMs - now
    (max 0 ((waitMs + 999).fdiv 1000)).toNat

/-- State of the RateLimiter class: the two windows and their ceilings. -/
structure RateLimiterState where
  rpmLimit : Nat
  tpmLimit : Nat
  windowMs : Int
  rpm : List WindowEntry
  tpm : List WindowEntry
deriving Repr

/-- The RateLimitError thrown by check, carrying retry-after seconds. -/
structure RateLimitError where
  message : String
  retryAfterSec : Nat
deriving Repr, DecidableEq

/-- RateLimiter.check: fail when the request window is at its ceiling or when
the token window plus the new tokens exceeds its ceiling. -/
def rateLimiterCheck (st : RateLimiterState) (now : Int) (tokenCount : Nat) :
    Except RateLimitError Unit :=
  let currentRpm := windowCount st.windowMs now st.rpm
  let currentTpm := windowCount st.windowMs now st.tpm
  if st.rpmLimit ≤ currentRpm then
    .error ⟨"Rate limit exceeded: requests per minute", getRetryAfterSec st.windowMs now st.rpm⟩
  else if st.tpmLimit < currentTpm + tokenCount then
    .error ⟨"Rate limit exceeded: tokens per minute", getRetryAfterSec st.windowMs now st.tpm⟩
  else
    .ok ()

/-- RateLimiter.record: append one request and the token weight. -/
def rateLimiterRecord (st : RateLimiterState) (now : Int) (tokenCount : Nat) :
    RateLimiterState :=
  { st with
    rpm := windowAdd st.windowMs now st.rpm 1
    tpm := windowAdd st.windowMs now st.tpm tokenCount }

/-- RateLimiter.checkAndRecord: check, then record on success. -/
def rateLimiterCheckAndRecord (st : RateLimiterState) (now : Int) (tokenCount : Nat) :
    Except RateLimitError RateLimiterState :=
  match rateLimiterCheck st now tokenCount with
  | .error e => .error e
  | .ok _ => .ok (rateLimiterRecord st now tokenCount)

/-! ## Qdrant client wrapper (src/shared/src/qdrant-client.ts)

The MD5 digest comes from node:crypto and is supplied as an oracle
producing the hex digest; the wrapper only rearranges the hex characters.
The SDK upsert call is modelled by the list of underlying store calls the
wrapper issues, and the collection is modelled as an association list of
stored points keyed by the point id, with insert-or-replace semantics. -/

/-- stringToUuid: format the 32 hex digits of the MD5 digest as a UUID. -/
def stringToUuid (md5Hex : String → String) (s : String) : String :=
  let hex := md5Hex s
  (jsSlice hex 0 8) ++ "-" ++ (jsSlice hex 8 12) ++ "-" ++ (jsSlice hex 12 16) ++ "-" ++
    (jsSlice hex 16 20) ++ "-" ++ (jsSlice hex 20 32)

/-- Named vectors of an upsert point: the dense vector plus the BM25 text
inference input (the chunk text and the model tag). -/
structure UpsertVector where
  dense : List Int
  bm25Text : String
  bm25Model : String
deriving Repr, DecidableEq

/-- UpsertPoint as passed to QdrantClient.upsert: chunk string id, named
vectors and payload (modelled as a string-keyed association list). -/
structure UpsertPoint where
  id : String
  vector : UpsertVector
  payload : List (String × String)
deriving Repr, DecidableEq

/-- A point as sent to the store: UUID id, vectors, extended payload. -/
structure StoredPoint where
  id : String
  vector : UpsertVector
  payload : List (String × String)
deriving Repr, DecidableEq

/-- The object-spread that sets the chunk_id key of the payload. -/
def setPayloadKey (payload : List (String × String)) (key value : String) :
    List (String × String) :=
  payload.filter (fun kv => kv.1 ≠ key) ++ [(key, value)]

/-- Build the stored point for one upsert point: hash-derived UUID id, the
vectors unchanged, and the payload extended with chunk_id. -/
def preparePoint (md5Hex : String → String) (p : UpsertPoint) : StoredPoint :=
  ⟨stringToUuid md5Hex p.id, p.vector, setPayloadKey p.payload "chunk_id" p.id⟩

/-- One underlying SDK upsert call: the wait flag and the prepared points. -/
structure UpsertCall where
  wait : Bool
  points : List StoredPoint
deriving Repr, DecidableEq

/-- QdrantClient.upsert: nothing for an empty list, otherwise a single
underlying store call carrying every point, with wait set to true.
withRetry re-issues the same call on transient failure and does not
change its contents, so it is not modelled separately. -/
def qdrantUpsert (md5Hex : String → String) (points : List UpsertPoint) : List UpsertCall :=
  if points.isEmpty then [] else [⟨true, points.map (preparePoint md5Hex)⟩]

/-- The collection as the vector store keeps it: points keyed by point id. -/
def insertPoint (coll : List (String × StoredPoint)) (p : StoredPoint) :
    List (String × StoredPoint) :=
  coll.filter (fun kv => kv.1 ≠ p.id) ++ [(p.id, p)]

/-- Store semantics of one upsert call: insert or replace each point. -/
def applyUpsertCall (coll : List (String × StoredPoint)) (call : UpsertCall) :
    List (String × StoredPoint) :=
  call.points.foldl insertPoint coll

/-- Collection state after a QdrantClient.upsert of the given points. -/
def applyUpsert (md5Hex : String → String) (coll : List (String × StoredPoint))
    (points : List UpsertPoint) : List (String × StoredPoint) :=
  (qdrantUpsert md5Hex points).foldl applyUpsertCall coll

/-! ## Voyage embedder (src/shared/src/embedder.ts)

The voyageai SDK call is an oracle indexed by the attempt number; its
outcome is either the response data, a RateLimitError raised by the
rate limiter integration, or a thrown error carrying a message. -/

/-- Is the character in the CJK unified ideograph range 4e00 to 9fa5. -/
def isCjkChar (c : Char) : Bool :=
  0x4e00 ≤ c.toNat && c.toNat ≤ 0x9fa5

/-- estimateTokens: ceil of chinese/1.5 + other/2.5, computed exactly
over the rationals (the source computes it in floating point). -/
def estimateTokens (text : String) : Nat :=
  let chineseChars := (text.data.filter isCjkChar).length
  let otherChars := text.length - chineseChars
  (10 * chineseChars + 6 * otherChars + 14) / 15

/-- Voyage API batch token ceiling used by the dynamic batching. -/
def MAX_BATCH_TOKENS : Nat := 60000

/-- Embedder configuration (the part relevant to embedBatch). -/
structure EmbedderConfig where
  model : String
  embeddingDim : Nat
  batchSize : Nat
  maxRetries : Nat
  retryDelay : Nat
deriving Repr

/-- Result of embedding one text. -/
structure EmbedResult where
  text : String
  embedding : List Int
  tokens : Nat
deriving Repr, DecidableEq

/-- Outcome of one attempted SDK embed call. -/
inductive EmbedAttemptOutcome where
  | response (data : List (List Int))
  | rateLimit (retryAfterSec : Nat)
  | failure (message : String)
deriving Repr

/-- The value caught by the retry wrapper. -/
inductive CaughtError where
  | rateLimitErr (retryAfterSec : Nat)
  | errMsg (message : String)
deriving Repr, DecidableEq

/-- Error escaping embedBatchWithRetry. -/
inductive EmbedError where
  | rateLimited (retryAfterSec : Nat)
  | api (message : String) (attempts : Nat)
deriving Repr, DecidableEq

/-- VoyageEmbedder.isRetryableError on a plain error message. -/
def isRetryableMessage (message : String) : Bool :=
  let m := jsToLower message
  strIncludes m "timeout" || strIncludes m "econnreset" || strIncludes m "econnrefused" ||
    strIncludes m "529" || strIncludes m "500" || strIncludes m "502" || strIncludes m "503"

/-- VoyageEmbedder.isRetryableError. -/
def isRetryableCaught : CaughtError → Bool
  | .rateLimitErr _ => true
  | .errMsg m => isRetryableMessage m

/-- One pass of the try block of embedBatchWithRetry: rate limiting and the
SDK call via the oracle, building the per-text results, then the embedding
dimension check, whose thrown Error is caught by the same handler. -/
def embedAttempt (cfg : EmbedderConfig) (env : Nat → EmbedAttemptOutcome)
    (texts : List String) (attempt : Nat) : Except CaughtError (List EmbedResult) :=
  match env attempt with
  | .rateLimit s => .error (.rateLimitErr s)
  | .failure m => .error (.errMsg m)
  | .response data =>
    let results := texts.enum.map
      (fun it => ⟨it.2, data.getD it.1 [], estimateTokens it.2⟩)
    match results.find? (fun r => r.embedding.length ≠ cfg.embeddingDim) with
    | some r =>
      .error (.errMsg ("Embedding dimension mismatch: expected " ++
        toString cfg.embeddingDim ++ ", got " ++ toString r.embedding.length))
    | none => .ok results

/-- embedBatchWithRetry: retry retryable failures while the attempt count is
below maxRetries, sleeping retryDelay times two to the attempt minus one;
non-retryable or exhausted failures escape as RateLimitError or ApiError.
Returns the outcome together with the list of delays slept. -/
def embedBatchWithRetry (cfg : EmbedderConfig) (env : Nat → EmbedAttemptOutcome)
    (texts : List String) (attempt : Nat) :
    Except EmbedError (List EmbedResult) × List Nat :=
  match embedAttempt cfg env texts attempt with
  | .ok r => (.ok r, [])
  | .error ev =>
    if h : attempt < cfg.maxRetries ∧ isRetryableCaught ev = true then
      let delay := cfg.retryDelay * 2 ^ (attempt - 1)
      let rec' := embedBatchWithRetry cfg env texts (attempt + 1)
      (rec'.1, delay :: rec'.2)
    else
      match ev with
      | .rateLimitErr s => (.error (.rateLimited s), [])
      | .errMsg m => (.error (.api m attempt), [])
termination_by cfg.maxRetries - attempt
decreasing_by omega

/-- The dynamic batching loop of embedBatch: close the open batch when the
estimated tokens would exceed the ceiling or the batch is full, then push
the text onto the batch.  The oracle is keyed by the batch contents. -/
def embedLoop (cfg : EmbedderConfig) (env : List String → Nat → EmbedAttemptOutcome) :
    List String → List String → Nat → List EmbedResult →
    Except EmbedError (List EmbedResult)
  | [], batch, _batchTokens, acc =>
    if batch.isEmpty then .ok acc
    else
      match (embedBatchWithRetry cfg (env batch) batch 1).1 with
      | .error e => .error e
      | .ok rs => .ok (acc ++ rs)
  | text :: rest, batch, batchTokens, acc =>
    let tokens := estimateTokens text
    if ¬batch.isEmpty ∧ (MAX_BATCH_TOKENS < batchTokens + tokens ∨ cfg.batchSize ≤ batch.length) then
      match (embedBatchWithRetry cfg (env batch) batch 1).1 with
      | .error e => .error e
      | .ok rs => embedLoop cfg env rest [text] tokens (acc ++ rs)
    else
      embedLoop cfg env rest (batch ++ [text]) (batchTokens + tokens) acc

/-- VoyageEmbedder.embedBatch. -/
def embedBatch (cfg : EmbedderConfig) (env : List String → Nat → EmbedAttemptOutcome)
    (texts : List String) : Except EmbedError (List EmbedResult) :=
  if texts.isEmpty then .ok [] else embedLoop cfg env texts [] 0 []

/-! ## Language detection (src/mcp/src/rag/language-detect.ts)

The franc library is external and is supplied as an oracle returning its
three letter language code. -/

/-- The Language union type. -/
inductive Language where
  | zh
  | en
  | ja
deriving Repr, DecidableEq

/-- The string value of a Language member. -/
def Language.code : Language → String
  | .zh => "zh"
  | .en => "en"
  | .ja => "ja"

/-- LANG_MAP: franc code to Language. -/
def langMap (francCode : String) : Option Language :=
  if francCode = "zho" ∨ francCode = "cmn" ∨ francCode = "lzh" then some .zh
  else if francCode = "eng" then some .en
  else if francCode = "jpn" then some .ja
  else none

/-- Minimum length below which franc is not consulted. -/
def MIN_DETECTION_LENGTH : Nat := 10

/-- detectLanguage: fall back for empty or short text or unmapped codes. -/
def detectLanguage (franc : String → String) (text : String) (fallback : Language) :
    Language :=
  if text.isEmpty ∨ (jsTrim text).length = 0 then fallback
  else if (jsTrim text).length < MIN_DETECTION_LENGTH then fallback
  else
    match langMap (franc text) with
    | some detected => detected
    | none => fallback

/-! ## RAG searcher (src/rag/searcher.ts)

The Qdrant queries, the query embedding and the Voyage rerank HTTP call are
oracles in a SearchEnv.  Scores are modelled over Rat.  The wall-clock
search_time_ms field and the log lines are outside the model, except that
the rerank failure warning is reported as a flag in the outcome. -/

/-- Payload of a scored point as read back from Qdrant. -/
structure QdrantPayload where
  chunk_id : Option String
  content : Option String
  doc_id : Option String
  metadata : List (String × String)
deriving Repr, DecidableEq

/-- QdrantSearchResult of the query API. -/
structure QdrantSearchResult where
  id : String
  score : Rat
  payload : Option QdrantPayload
deriving Repr, DecidableEq

/-- InternalSearchResult of the search pipeline.  The metadata object spread
of the source is split into the inherited entries and the doc_id field. -/
structure InternalSearchResult where
  id : String
  score : Rat
  content : String
  metadataRest : List (String × String)
  metadataDocId : Option String
  source : Option String
deriving Repr, DecidableEq

/-- mapQdrantResults: read chunk_id, content, metadata and doc_id out of the
payload, with the source defaults. -/
def mapQdrantResults (results : List QdrantSearchResult) : List InternalSearchResult :=
  results.map (fun r =>
    ⟨((r.payload.bind (fun p => p.chunk_id)).getD r.id),
     r.score,
     ((r.payload.bind (fun p => p.content)).getD ""),
     ((r.payload.map (fun p => p.metadata)).getD []),
     (r.payload.bind (fun p => p.doc_id)),
     none⟩)

/-- Outcome of the single rerank HTTP call, indexed by attempt number to
compare against the embedder retry policy; the source consults index 0 only. -/
inductive RerankOutcome where
  | ok (data : List (Nat × Rat))
  | httpError (status : Nat) (body : String)
  | missingData
  | networkError (message : String)
deriving Repr

/-- VoyageReranker.rerank: empty input short-circuits; one fetch; every
failure is caught, logs a warning and returns the documents unchanged.
The Bool of the result records whether the warning was logged. -/
def rerankCall (outcome : Nat → RerankOutcome) (_query : String)
    (documents : List InternalSearchResult) (_topK : Nat) :
    List InternalSearchResult × Bool :=
  if documents.isEmpty then ([], false)
  else
    match outcome 0 with
    | .ok data =>
      let mapped := data.map (fun it =>
        match documents.get? it.1 with
        | some d => { d with score := it.2, source := some "rerank" }
        | none => ⟨"", it.2, "", [], none, some "rerank"⟩)
      (mapped.mergeSort (fun a b => b.score ≤ a.score), false)
    | _ => (documents, true)

/-- Length of the content preview. -/
def PREVIEW_LENGTH : Nat := 200

/-- Strip a trailing underscore chunk suffix of one or more digits, the
replace of the doc_id fallback in the result shaping. -/
def stripChunkSuffix (id : String) : String :=
  let rev := id.data.reverse
  let digits := rev.takeWhile (fun c => c.isDigit)
  let rest := rev.drop digits.length
  if digits.length > 0 ∧ charsStartWith "knuhc_".data rest then
    String.mk (rest.drop 6).reverse
  else id

/-- SearchResult as shaped for the tool layer (metadata omitted). -/
structure SearchResultR where
  rank : Nat
  doc_id : String
  chunk_id : String
  score : Rat
  content : String
  content_preview : String
deriving Repr, DecidableEq

/-- SearchResponse (search_time_ms is wall clock and outside the model). -/
structure SearchResponse where
  query : String
  results : List SearchResultR
  rerank_used : Bool
  fusion_mode : String
  detected_lang : String
  doc_language : String
deriving Repr, DecidableEq

/-- The searcher configuration after constructor defaults are applied. -/
structure SearcherConfig where
  collection : String
  docLanguage : String
  prefetchLimit : Nat
  rerankTopK : Nat
  denseScoreThreshold : Rat
  rrfK : Nat
  hasReranker : Bool
deriving Repr

/-- The query the searcher issues to the vector store. -/
inductive IssuedQuery where
  | hybrid (collection : String) (denseVector : List Int) (queryText : String)
      (limit : Nat) (rrfK : Nat)
  | dense (collection : String) (vector : List Int) (limit : Nat) (scoreThreshold : Rat)
deriving Repr, DecidableEq

/-- Environment of one search call: franc, the query embedding, the two
Qdrant query endpoints and the rerank HTTP call. -/
structure SearchEnv where
  franc : String → String
  embed : String → List Int
  queryHybrid : List Int → String → Nat → Nat → List QdrantSearchResult
  queryDense : List Int → Nat → Rat → List QdrantSearchResult
  rerankOutcome : Nat → RerankOutcome

/-- The fusion stage of search: choose hybrid or dense retrieval by language
agreement and record the issued query and the fusion mode string. -/
def fusionStage (cfg : SearcherConfig) (env : SearchEnv) (query : String)
    (denseVector : List Int) (prefetchLimit : Nat) (useBm25 : Bool) :
    List QdrantSearchResult × IssuedQuery × String :=
  if useBm25 then
    (env.queryHybrid denseVector query prefetchLimit cfg.rrfK,
     .hybrid cfg.collection denseVector query prefetchLimit cfg.rrfK, "rrf")
  else
    (env.queryDense denseVector prefetchLimit cfg.denseScoreThreshold,
     .dense cfg.collection denseVector prefetchLimit cfg.denseScoreThreshold, "dense_only")

/-- Shape the truncated internal results into the response results. -/
def shapeResults (results : List InternalSearchResult) : List SearchResultR :=
  results.enum.map (fun it =>
    ⟨it.1 + 1,
     it.2.metadataDocId.getD (stripChunkSuffix it.2.id),
     it.2.id, it.2.score, it.2.content, it.2.content.take PREVIEW_LENGTH⟩)

/-- Result of one search call: the response, the query issued to the vector
store, and whether the rerank failure warning was logged. -/
structure SearchOutcome where
  response : SearchResponse
  issued : IssuedQuery
  rerankWarned : Bool
deriving Repr

/-- RagSearcher.search. -/
def ragSearch (cfg : SearcherConfig) (env : SearchEnv) (query : String)
    (limit : Option Nat) (useRerank : Option Bool) : SearchOutcome :=
  let finalLimit := limit.getD cfg.rerankTopK
  let detectedLang := detectLanguage env.franc query Language.en
  let useBm25 := detectedLang.code = cfg.docLanguage
  let denseVector := env.embed query
  let rerankActive := useRerank ≠ some false ∧ cfg.hasReranker = true
  let prefetchLimit := if rerankActive then cfg.prefetchLimit else finalLimit
  let stage := fusionStage cfg env query denseVector prefetchLimit useBm25
  let results0 := mapQdrantResults stage.1
  let reranked :=
    if rerankActive then rerankCall env.rerankOutcome query results0 cfg.rerankTopK
    else (results0, false)
  let results2 := reranked.1.take finalLimit
  ⟨⟨query, shapeResults results2, decide rerankActive, stage.2.2,
    detectedLang.code, cfg.docLanguage⟩,
   stage.2.1, reranked.2⟩

/-! ## HTTP session dispatch (src/mcp/src/http.ts)

createMcpHandler gives every product its own session map.  The transport
forwarding is opaque; the model records which branch of the handler ran,
the JSON-RPC error responses, and the updated session map. -/

/-- One session entry: last activity timestamp and client info. -/
structure SessionData where
  lastActivity : Int
  clientInfo : Option (String × String)
deriving Repr, DecidableEq

/-- An incoming MCP request as far as routing is concerned. -/
structure McpRequest where
  sessionHeader : Option String
  isInit : Bool
  clientInfo : Option (String × String)
deriving Repr

/-- Response of the per-product handler. -/
inductive McpHandlerResponse where
  | forwarded (sessionId : String)
  | forwardedInit (newSessionId : String)
  | jsonRpcErr (httpStatus : Nat) (code : Int) (message : String)
deriving Repr, DecidableEq

/-- The request branch of createMcpHandler: refresh and forward on a known
session id; 404 with code -32001 on an unknown session id; create a session
and forward on a headerless initialize; 400 otherwise.  newSessionId stands
for the id the transport generates on initialize. -/
def handleMcpRequest (sessions : List (String × SessionData)) (now : Int)
    (newSessionId : String) (req : McpRequest) :
    McpHandlerResponse × List (String × SessionData) :=
  match req.sessionHeader with
  | some sid =>
    if (sessions.lookup sid).isSome then
      (.forwarded sid,
       sessions.map (fun kv => if kv.1 = sid then (kv.1, { kv.2 with lastActivity := now }) else kv))
    else
      (.jsonRpcErr 404 (-32001) "Session not found. Client must re-initialize.", sessions)
  | none =>
    if req.isInit then
      (.forwardedInit newSessionId, sessions ++ [(newSessionId, ⟨now, req.clientInfo⟩)])
    else
      (.jsonRpcErr 400 (-32600) "Bad Request: Missing session ID or not an initialize request.",
       sessions)

/-- Server state: one session map per registered product path. -/
def ServerSessions := List (String × List (String × SessionData))

/-- Route a request for the endpoint of the given product: the handler of
that product runs on its own session map; other products are untouched.
Unregistered product paths fall through to the 404 handler. -/
def routeMcpRequest (st : ServerSessions) (productId : String) (now : Int)
    (newSessionId : String) (req : McpRequest) : McpHandlerResponse × ServerSessions :=
  match (st : List _).lookup productId with
  | none => (.jsonRpcErr 404 0 "Not found", st)
  | some sessions =>
    let r := handleMcpRequest sessions now newSessionId req
    (r.1, (st : List _).map (fun kv => if kv.1 = productId then (kv.1, r.2) else kv))

/-! ## Chunker base primitives (src/embed/src/document/chunkers/base.ts)

The header regular expressions are modelled on the line level: a header is
a line of one to six hashes followed by whitespace and at least one more
character.  The corner case of a whitespace run in the pattern crossing a
newline (a bare hash line directly followed by text) is not modelled. -/

/-- Does the line match the ATX header pattern for hash counts between
minL and maxL: exactly that many leading hashes, then whitespace, then at
least one further character. -/
def isAtxHeaderLine (minL maxL : Nat) (line : String) : Bool :=
  let c := (line.data.takeWhile (fun d => d = '#')).length
  minL ≤ c && c ≤ maxL && c + 2 ≤ line.length &&
    (match line.data.drop c with
     | d :: _ => isJsSpace d
     | [] => false)

/-- Header text after the hashes and the whitespace run, trimmed. -/
def headerTextOf (line : String) : String :=
  let c := (line.data.takeWhile (fun d => d = '#')).length
  jsTrim (String.mk ((line.data.drop c).dropWhile isJsSpace))

/-- extractToc: one line per header, indented two spaces per level. -/
def tocLineOf (line : String) : Option String :=
  if isAtxHeaderLine 1 6 line then
    let c := (line.data.takeWhile (fun d => d = '#')).length
    some (String.join (List.replicate (c - 1) "  ") ++ headerTextOf line)
  else none

/-- BaseChunker.extractToc. -/
def extractToc (content : String) : String :=
  String.intercalate "\n" ((jsSplitOn content "\n").filterMap tocLineOf)

/-- Group the lines of the content so that every header line for the given
level range starts a new group; a leading headerless group may precede. -/
def headerGroups (minL maxL : Nat) : List String → List (List String)
  | [] => []
  | l :: rest =>
    let body := rest.takeWhile (fun x => ¬ isAtxHeaderLine minL maxL x)
    (l :: body) :: headerGroups minL maxL (rest.dropWhile (fun x => ¬ isAtxHeaderLine minL maxL x))
termination_by ls => ls.length
decreasing_by
  simp only [List.length_cons]
  exact Nat.lt_succ_of_le (List.dropWhile_suffix _).sublist.length_le

/-- Text of one group as the source split reassembles it: the split leaves
the newline after a header in the following part, so the loop inserts an
extra newline after every header line. -/
def sectionTextOf (minL maxL : Nat) (g : List String) : String :=
  match g with
  | [] => ""
  | l :: rest =>
    if isAtxHeaderLine minL maxL l then
      if rest.isEmpty then l else l ++ "\n\n" ++ String.intercalate "\n" rest
    else String.intercalate "\n" g

/-- BaseChunker.splitByHeaders: trimmed nonempty sections, each beginning
with its header line, falling back to the whole content. -/
def splitByHeaders (minL maxL : Nat) (content : String) : List String :=
  let groups := headerGroups minL maxL (jsSplitOn content "\n")
  let sections := (groups.map (fun g => jsTrim (sectionTextOf minL maxL g))).filter
    (fun s => ¬ s.isEmpty)
  if sections.isEmpty then [content] else sections

/-- BaseChunker.extractHeader: the first line when it is a header. -/
def extractHeader (sec : String) : String :=
  let firstLine := ((jsSplitOn sec "\n").headD "")
  if isAtxHeaderLine 1 6 firstLine then firstLine else ""

/-- BaseChunker.extractHeaderText: header text of the first line. -/
def extractHeaderText (sec : String) : String :=
  let firstLine := ((jsSplitOn sec "\n").headD "")
  if isAtxHeaderLine 1 6 firstLine then headerTextOf firstLine else ""

/-- One separator probe of findBreakPoint: take the last occurrence not
past maxPos when it lies past half of maxPos.  The comparison pos greater
than maxPos halved is carried out exactly as two pos greater than maxPos. -/
def fbpSimpleSep (text : String) (maxPos : Int) (sep : String) : Option Int :=
  let pos := lastIndexOfFrom text sep maxPos
  if maxPos < 2 * pos then some (pos + sep.length) else none

/-- The trailing period scan of findBreakPoint: walk occurrences of the
period from maxPos down, accepting one followed by whitespace or the end,
stopping at half of maxPos; the fuel bounds the strictly decreasing scan. -/
def fbpDotLoop (text : String) (maxPos : Int) : Nat → Int → Int
  | 0, _ => maxPos
  | fuel + 1, searchPos =>
    if maxPos < 2 * searchPos then
      let pos := lastIndexOfFrom text "." searchPos
      if 2 * pos ≤ maxPos then maxPos
      else
        match text.data.get? (pos.toNat + 1) with
        | none => pos + 1
        | some next => if isJsSpace next then pos + 1 else fbpDotLoop text maxPos fuel (pos - 1)
    else maxPos

/-- BaseChunker.findBreakPoint: paragraph, newline, ideographic full stop,
then URL-safe period, falling back to a hard cut at maxPos. -/
def findBreakPoint (text : String) (maxPos : Int) : Int :=
  match fbpSimpleSep text maxPos "\n\n" with
  | some r => r
  | none =>
    match fbpSimpleSep text maxPos "\n" with
    | some r => r
    | none =>
      match fbpSimpleSep text maxPos "。" with
      | some r => r
      | none => fbpDotLoop text maxPos ((max maxPos 0).toNat + 2) maxPos

/-- Split a character list on runs of two or more newlines. -/
def blankRunSplit : List Char → List Char → List (List Char)
  | [], cur => [cur.reverse]
  | '\n' :: '\n' :: rest, cur =>
    cur.reverse :: blankRunSplit (rest.dropWhile (fun c => c = '\n')) []
  | c :: rest, cur => blankRunSplit rest (c :: cur)
termination_by l _ => l.length
decreasing_by
  · have h : (List.dropWhile (fun c => decide (c = '\n')) rest).length ≤ rest.length :=
      (List.dropWhile_suffix _).sublist.length_le
    simp only [List.length_cons]
    omega
  · simp only [List.length_cons]
    omega

/-- The blank line split of splitCodeBlock. -/
def splitOnBlankRuns (s : String) : List String :=
  (blankRunSplit s.data []).map String.mk

/-- Wrap a piece of code block content back in its fence. -/
def wrapFence (fence body : String) : String :=
  fence ++ "\n" ++ body ++ "\n```"

/-- The hard slicing of an over-long single part, stepping by the content
budget.  The source for-loop never terminates when the budget is not
positive, so the model is restricted to a positive budget. -/
def hardSlices (contentBudget : Int) (part : String) : List String :=
  if contentBudget ≤ 0 then []
  else
    let cb := contentBudget.toNat
    (List.range ((part.length + cb - 1) / cb)).map
      (fun i => jsSlice part ((i * cb : Nat) : Int) (((i + 1) * cb : Nat) : Int))

/-- BaseChunker.splitCodeBlock: keep the fence, split the inner content by
blank lines or single newlines, accumulate parts into the content budget,
hard-slicing any single part that exceeds it. -/
def splitCodeBlock (chunkSize : Nat) (codeBlock : String) : List String :=
  let firstNewline := indexOfChar codeBlock '\n'
  let fence := if 0 < firstNewline then jsSlice codeBlock 0 firstNewline else "```"
  let inner := jsSlice codeBlock (firstNewline + 1) (lastIndexOfStr codeBlock "```")
  let fenceOverhead := fence.length + 1 + 4
  let contentBudget : Int := (chunkSize : Int) - fenceOverhead
  let parts0 := splitOnBlankRuns inner
  let separator := if 1 < parts0.length then "\n\n" else "\n"
  let parts := if parts0.length ≤ 1 then jsSplitOn inner "\n" else parts0
  let step := fun (st : List String × String) (part : String) =>
    if contentBudget < (part.length : Int) then
      let result := if ¬ st.2.isEmpty then st.1 ++ [wrapFence fence (jsTrimEnd st.2)] else st.1
      (result ++ (hardSlices contentBudget part).map (wrapFence fence), "")
    else
      let addition := part ++ separator
      let st1 :=
        if contentBudget < (st.2.length : Int) + addition.length ∧ ¬ st.2.isEmpty then
          (st.1 ++ [wrapFence fence (jsTrimEnd st.2)], "")
        else st
      (st1.1, st1.2 ++ addition)
  let fin := parts.foldl step ([], "")
  let result :=
    if ¬ (jsTrim fin.2).isEmpty then fin.1 ++ [wrapFence fence (jsTrimEnd fin.2)] else fin.1
  if result.isEmpty then [codeBlock] else result

/-- Pair the parts between fence markers into code blocks; a dangling
part after an unmatched opening fence stays plain text. -/
def pairSegments : List String → List (String × Bool)
  | [] => []
  | [a] => [("```" ++ a, false)]
  | a :: b :: rest => ("```" ++ a ++ "```", true) :: (b, false) :: pairSegments rest

/-- The segment decomposition of splitProtected: alternating plain text and
fenced code blocks, empty plain segments dropped, concatenating back to the
input.  The lazy fence regular expression pairs consecutive fence markers
scanning from the left, which is what splitting on the marker yields. -/
def segmentsOf (text : String) : List (String × Bool) :=
  match jsSplitOn text "```" with
  | [] => []
  | p0 :: rest => ((p0, false) :: pairSegments rest).filter (fun sg => ¬ sg.1.isEmpty)

/-- The inner while-loop of splitProtected over a plain text segment:
repeatedly cut at the best break point within the remaining budget.  The
fuel bounds the iterations; with a positive chunk size every two
iterations consume at least one character, and with chunk size zero the
source loop does not terminate. -/
def splitRemainingLoop (chunkSize : Nat) :
    Nat → List String → String → String → List String × String
  | 0, chunks, current, _ => (chunks, current)
  | fuel + 1, chunks, current, remaining =>
    if remaining.isEmpty then (chunks, current)
    else
      let spaceLeft : Int := (chunkSize : Int) - current.length
      if (remaining.length : Int) ≤ spaceLeft then (chunks, current ++ remaining)
      else
        let cutPoint := findBreakPoint remaining spaceLeft
        let current2 := current ++ jsSlice remaining 0 cutPoint
        let chunks2 := if ¬ (jsTrim current2).isEmpty then chunks ++ [jsTrim current2] else chunks
        splitRemainingLoop chunkSize fuel chunks2 "" (jsSliceFrom remaining cutPoint)

/-- The plain text branch of the splitProtected segment loop. -/
def nonCodeStep (chunkSize : Nat) (st : List String × String) (segmentText : String) :
    List String × String :=
  if st.2.length + segmentText.length ≤ chunkSize then (st.1, st.2 ++ segmentText)
  else splitRemainingLoop chunkSize (2 * segmentText.length + 3) st.1 st.2 segmentText

/-- The code block branch of the splitProtected segment loop: merge small
blocks within one and a half chunk sizes, explode blocks over three chunk
sizes, otherwise flush and carry the block.  The comparisons against the
fractional tolerances are carried out exactly after doubling. -/
def codeStep (chunkSize : Nat) (st : List String × String) (segmentText : String) :
    List String × String :=
  if ¬ st.2.isEmpty ∧ 2 * (st.2.length + segmentText.length) ≤ 3 * chunkSize then
    (st.1, st.2 ++ segmentText)
  else
    let chunks := if ¬ (jsTrim st.2).isEmpty then st.1 ++ [jsTrim st.2] else st.1
    if 3 * chunkSize < segmentText.length then
      let codeChunks := splitCodeBlock chunkSize segmentText
      let chunks := chunks ++ codeChunks.dropLast.filterMap
        (fun c => if (jsTrim c).isEmpty then none else some (jsTrim c))
      (chunks, codeChunks.getLastD "")
    else (chunks, segmentText)

/-- BaseChunker.splitProtected. -/
def splitProtected (chunkSize minChunkSize : Nat) (text : String) : List String :=
  if text.length ≤ chunkSize then [text]
  else
    let segments := segmentsOf text
    if segments.isEmpty then [text]
    else
      let fin := segments.foldl
        (fun st sg => if sg.2 then codeStep chunkSize st sg.1 else nonCodeStep chunkSize st sg.1)
        ([], "")
      let chunks :=
        if ¬ (jsTrim fin.2).isEmpty ∧ minChunkSize ≤ (jsTrim fin.2).length then
          fin.1 ++ [jsTrim fin.2]
        else fin.1
      if chunks.isEmpty then [text] else chunks

/-! ## Documents and chunks (src/embed/src/document/types.ts) -/

/-- Chunker options. -/
structure ChunkerOptions where
  chunk_size : Nat
  min_chunk_size : Nat
deriving Repr

/-- A loaded document with the metadata fields the chunkers read. -/
structure Document where
  id : String
  content : String
  relative_path : String
  category : Option String
deriving Repr

/-- Chunk metadata: inherited document fields plus the chunker fields. -/
structure ChunkMeta where
  relative_path : String
  category : Option String
  chunk_index : Nat
  total_chunks : Option Nat
  section_path : Option (List String)
  doc_toc : Option String
  chunk_type : Option String
deriving Repr, DecidableEq

/-- A chunk as produced by the chunkers. -/
structure Chunk where
  id : String
  doc_id : String
  chunk_index : Nat
  content : String
  metadata : ChunkMeta
deriving Repr, DecidableEq

/-- BaseChunker.createChunk. -/
def createChunk (doc : Document) (chunkIndex : Nat) (content : String)
    (chunkType : Option String) : Chunk :=
  ⟨doc.id ++ "_chunk" ++ toString chunkIndex, doc.id, chunkIndex, content,
   ⟨doc.relative_path, doc.category, chunkIndex, none, none, none, chunkType⟩⟩

/-- Set the section_path metadata field. -/
def setSectionPath (c : Chunk) (path : List String) : Chunk :=
  { c with metadata := { c.metadata with section_path := some path } }

/-- Set the doc_toc metadata field. -/
def setDocToc (c : Chunk) (toc : String) : Chunk :=
  { c with metadata := { c.metadata with doc_toc := some toc } }

/-- Set the total_chunks metadata field. -/
def setTotalChunks (c : Chunk) (n : Nat) : Chunk :=
  { c with metadata := { c.metadata with total_chunks := some n } }

/-! ## Markdown chunker (src/document/chunkers/markdown.ts)

The same document strategy is reused verbatim by the TypeDoc chunker for
its doc category, which additionally tags a chunk type; the shared code is
parameterised by that tag.  The pair-returning loops thread the chunkIndex
counter exactly as the source generator does. -/

/-- The inner loop over the protected splits of one subsection: drop texts
trimming below the minimum, re-prepend the section header to continuation
texts that do not already start with a header, and emit with the running
chunk index.  Returns the chunks and the final counter. -/
def mdSubLoop (opts : ChunkerOptions) (doc : Document) (ct : Option String)
    (sectionHeader : String) (path : List String) :
    Nat → Nat → List String → List Chunk × Nat
  | _i, k, [] => ([], k)
  | i, k, t :: rest =>
    if (jsTrim t).length < opts.min_chunk_size then
      mdSubLoop opts doc ct sectionHeader path (i + 1) k rest
    else
      let text :=
        if 0 < i ∧ ¬ sectionHeader.isEmpty ∧ ¬ t.startsWith "#" then
          sectionHeader ++ "\n\n" ++ t
        else t
      let c := createChunk doc k text ct
      let c := if ¬ path.isEmpty then setSectionPath c path else c
      let r := mdSubLoop opts doc ct sectionHeader path (i + 1) (k + 1) rest
      (c :: r.1, r.2)

/-- The loop over the h3 subsections of an oversized h2 section. -/
def mdSubsLoop (opts : ChunkerOptions) (doc : Document) (ct : Option String)
    (h2 sectionHeader : String) : Nat → List String → List Chunk × Nat
  | k, [] => ([], k)
  | k, sub :: rest =>
    let h3 := extractHeaderText sub
    let path := [h2, h3].filter (fun s => ¬ s.isEmpty)
    let textChunks := splitProtected opts.chunk_size opts.min_chunk_size sub
    let r1 := mdSubLoop opts doc ct sectionHeader path 0 k textChunks
    let r2 := mdSubsLoop opts doc ct h2 sectionHeader r1.2 rest
    (r1.1 ++ r2.1, r2.2)

/-- One h2 section: emit directly when it fits and trims at least the
minimum, otherwise split at h3 and descend. -/
def mdSectionStep (opts : ChunkerOptions) (doc : Document) (ct : Option String)
    (k : Nat) (s : String) : List Chunk × Nat :=
  let h2 := extractHeaderText s
  if s.length ≤ opts.chunk_size then
    if opts.min_chunk_size ≤ (jsTrim s).length then
      let c := createChunk doc k s ct
      let c := if ¬ h2.isEmpty then setSectionPath c [h2] else c
      ([c], k + 1)
    else ([], k)
  else
    mdSubsLoop opts doc ct h2 (extractHeader s) k (splitByHeaders 3 3 s)

/-- The loop over the h2 sections. -/
def mdSectionsLoop (opts : ChunkerOptions) (doc : Document) (ct : Option String) :
    Nat → List String → List Chunk × Nat
  | k, [] => ([], k)
  | k, s :: rest =>
    let r1 := mdSectionStep opts doc ct k s
    let r2 := mdSectionsLoop opts doc ct r1.2 rest
    (r1.1 ++ r2.1, r2.2)

/-- MarkdownChunker.chunkDocument, parameterised by the chunk type tag. -/
def mdLikeChunkDocument (opts : ChunkerOptions) (doc : Document) (ct : Option String) :
    List Chunk :=
  if doc.content.length ≤ opts.chunk_size then
    if opts.min_chunk_size ≤ (jsTrim doc.content).length then
      [createChunk doc 0 doc.content ct]
    else []
  else
    (mdSectionsLoop opts doc ct 0 (splitByHeaders 2 2 doc.content)).1

/-- MarkdownChunker.chunkDocument. -/
def markdownChunkDocument (opts : ChunkerOptions) (doc : Document) : List Chunk :=
  mdLikeChunkDocument opts doc none

/-! ## TypeDoc chunker (src/document/chunkers/typedoc.ts) -/

/-- Headings of the TypeDoc table of contents region. -/
def TOC_HEADERS : List String := ["Content", "Table of contents", "Hierarchy"]

/-- The h2 line pattern of the TypeDoc api scan: two hashes, one space,
and a nonempty rest, which is the captured text. -/
def h2MatchText (line : String) : Option String :=
  if line.startsWith "## " ∧ 4 ≤ line.length then some (String.mk (line.data.drop 3))
  else none

/-- Content of one member group chunk: class header, separator, members. -/
def tdGroupText (classHeader : String) (group : List String) : String :=
  classHeader ++ "\n\n---\n\n" ++ String.intercalate "\n\n" group

/-- The member accumulation loop of the TypeDoc api strategy; the group
budget comparison happens on JavaScript numbers, so over Int. -/
def tdGroupLoop (opts : ChunkerOptions) (doc : Document) (classHeader : String)
    (headerBudget : Nat) : Nat → List String → Nat → List String → List Chunk
  | k, group, _groupSize, [] =>
    if ¬ group.isEmpty then
      [createChunk doc k (tdGroupText classHeader group) (some "api")]
    else []
  | k, group, groupSize, m :: rest =>
    if (opts.chunk_size : Int) - headerBudget < ((groupSize + m.length : Nat) : Int) ∧
        ¬ group.isEmpty then
      createChunk doc k (tdGroupText classHeader group) (some "api") ::
        tdGroupLoop opts doc classHeader headerBudget (k + 1) [m] (m.length + 2) rest
    else
      tdGroupLoop opts doc classHeader headerBudget k (group ++ [m]) (groupSize + m.length + 2) rest

/-- The fallback loop of the TypeDoc chunkBySize. -/
def tdBySizeLoop (opts : ChunkerOptions) (doc : Document) (header : String) :
    Nat → Nat → List String → List Chunk
  | _i, _k, [] => []
  | i, k, t :: rest =>
    if (jsTrim t).length < opts.min_chunk_size then
      tdBySizeLoop opts doc header (i + 1) k rest
    else
      let text :=
        if 0 < i ∧ ¬ header.isEmpty ∧ ¬ t.startsWith "#" then header ++ "\n\n" ++ t else t
      createChunk doc k text (some "api") :: tdBySizeLoop opts doc header (i + 1) (k + 1) rest

/-- TypeDocChunker.chunkBySize. -/
def tdChunkBySize (opts : ChunkerOptions) (doc : Document) (header : String) : List Chunk :=
  tdBySizeLoop opts doc header 0 0 (splitProtected opts.chunk_size opts.min_chunk_size doc.content)

/-- TypeDocChunker.chunkApi: small files whole; otherwise class header,
first non-TOC h2 as content start, h2 and h3 members filtered by the
minimum, grouped under the class header. -/
def tdChunkApi (opts : ChunkerOptions) (doc : Document) : List Chunk :=
  if doc.content.length ≤ opts.chunk_size then [createChunk doc 0 doc.content (some "api")]
  else
    let lines := jsSplitOn doc.content "\n"
    let firstLine := lines.headD ""
    let classHeader := if firstLine.startsWith "# " then firstLine else ""
    match lines.findIdx? (fun l =>
        match h2MatchText l with
        | some t => ¬ TOC_HEADERS.contains (jsTrim t)
        | none => false) with
    | none => tdChunkBySize opts doc classHeader
    | some detailsStart =>
      let detailContent := String.intercalate "\n" (lines.drop detailsStart)
      let members := splitByHeaders 2 3 detailContent
      let validMembers := members.filter (fun m => opts.min_chunk_size ≤ (jsTrim m).length)
      if validMembers.length < 2 then tdChunkBySize opts doc classHeader
      else tdGroupLoop opts doc classHeader (classHeader.length + 10) 0 [] 0 validMembers

/-- The continuation loop of the TypeDoc demo strategy. -/
def tdDemoLoop (opts : ChunkerOptions) (doc : Document) (header title : String) :
    Nat → Nat → List String → List Chunk
  | _i, _k, [] => []
  | i, k, t :: rest =>
    if (jsTrim t).length < opts.min_chunk_size then
      tdDemoLoop opts doc header title (i + 1) k rest
    else
      let text :=
        if 0 < i ∧ ¬ header.isEmpty ∧ ¬ t.startsWith "#" ∧ ¬ t.startsWith "```" then
          header ++ "\n\n" ++ t
        else t
      let c := createChunk doc k text (some "demo")
      let c := if ¬ title.isEmpty then setSectionPath c [title] else c
      c :: tdDemoLoop opts doc header title (i + 1) (k + 1) rest

/-- TypeDocChunker.chunkDemo. -/
def tdChunkDemo (opts : ChunkerOptions) (doc : Document) : List Chunk :=
  let title := extractHeaderText doc.content
  if doc.content.length ≤ opts.chunk_size then
    let c := createChunk doc 0 doc.content (some "demo")
    [if ¬ title.isEmpty then setSectionPath c [title] else c]
  else
    tdDemoLoop opts doc (extractHeader doc.content) title 0 0
      (splitProtected opts.chunk_size opts.min_chunk_size doc.content)

/-- TypeDocChunker.chunkDocument: dispatch on the document category. -/
def typedocChunkDocument (opts : ChunkerOptions) (doc : Document) : List Chunk :=
  match doc.category.getD "doc" with
  | "api" => tdChunkApi opts doc
  | "demo" => tdChunkDemo opts doc
  | _ => mdLikeChunkDocument opts doc (some "doc")

/-! ## JavaDoc chunker (src/document/chunkers/javadoc.ts) -/

/-- Markers ending the class header region. -/
def HEADER_END_MARKERS : List String := ["## Method Summary", "## Field Summary"]

/-- Markers starting the method details region. -/
def DETAILS_MARKERS : List String := ["## Method Details", "## Method Detail"]

/-- The header end scan: the first line containing a summary marker, or the
fallback line 15 once the scan passes line 30, else zero. -/
def jdHeaderEnd : Nat → List String → Nat
  | _, [] => 0
  | i, l :: rest =>
    if HEADER_END_MARKERS.any (fun m => strIncludes l m) then i
    else if 30 < i then 15
    else jdHeaderEnd (i + 1) rest

/-- The method start pattern: optional whitespace, an optional plus,
optional whitespace, three hashes, whitespace, a word character. -/
def isMethodLine (line : String) : Bool :=
  let l1 := line.data.dropWhile isJsSpace
  let l2 := match l1 with
    | '+' :: t => t.dropWhile isJsSpace
    | _ => l1
  match l2 with
  | '#' :: '#' :: '#' :: c :: rest =>
    isJsSpace c &&
      (match rest.dropWhile isJsSpace with
       | d :: _ => d.isAlphanum || d = '_'
       | [] => false)
  | _ => false

/-- Accumulate the detail lines into methods, starting a new method at
every method start line; the region before the first method line becomes
the first entry.  The current method is kept reversed. -/
def jdCollectMethodsGo : List String → List String → List String → List String
  | [], current, acc =>
    if ¬ current.isEmpty then acc ++ [jsTrim (String.intercalate "\n" current.reverse)]
    else acc
  | l :: rest, current, acc =>
    if isMethodLine l then
      if ¬ current.isEmpty then
        jdCollectMethodsGo rest [l] (acc ++ [jsTrim (String.intercalate "\n" current.reverse)])
      else jdCollectMethodsGo rest [l] acc
    else jdCollectMethodsGo rest (l :: current) acc

/-- Entry point of the method collection with empty accumulators. -/
def jdCollectMethods (lines : List String) : List String :=
  jdCollectMethodsGo lines [] []

/-- Content of one method group: header, separator, methods. -/
def jdMethodGroupText (header : String) (group : List String) : String :=
  if ¬ header.isEmpty then header ++ "\n\n---\n\n" ++ String.intercalate "\n\n" group
  else String.intercalate "\n\n" group

/-- The method accumulation loop of the JavaDoc api strategy. -/
def jdGroupLoop (opts : ChunkerOptions) (doc : Document) (header : String) :
    Nat → List String → Nat → List String → List Chunk
  | k, group, _gs, [] =>
    if ¬ group.isEmpty then
      [createChunk doc k (jdMethodGroupText header group) (some "api_methods")]
    else []
  | k, group, gs, m :: rest =>
    if opts.chunk_size < gs + m.length ∧ ¬ group.isEmpty then
      createChunk doc k (jdMethodGroupText header group) (some "api_methods") ::
        jdGroupLoop opts doc header (k + 1) [m] m.length rest
    else
      jdGroupLoop opts doc header k (group ++ [m]) (gs + m.length) rest

/-- The fallback loop of the JavaDoc chunkBySize: no header prefix. -/
def jdBySizeLoop (opts : ChunkerOptions) (doc : Document) :
    Nat → List String → List Chunk
  | _k, [] => []
  | k, t :: rest =>
    if (jsTrim t).length < opts.min_chunk_size then jdBySizeLoop opts doc k rest
    else createChunk doc k t none :: jdBySizeLoop opts doc (k + 1) rest

/-- JavaDocChunker.chunkBySize. -/
def jdChunkBySize (opts : ChunkerOptions) (doc : Document) : List Chunk :=
  jdBySizeLoop opts doc 0 (splitProtected opts.chunk_size opts.min_chunk_size doc.content)

/-- JavaDocChunker.chunkApi: header region up to the summary marker, the
body from the details marker split at method starts, at least three
methods required, groups bounded by the chunk size. -/
def jdChunkApi (opts : ChunkerOptions) (doc : Document) : List Chunk :=
  let lines := jsSplitOn doc.content "\n"
  let headerEnd := jdHeaderEnd 0 lines
  let header := jsTrim (String.intercalate "\n" (lines.take headerEnd))
  match lines.findIdx? (fun l => DETAILS_MARKERS.any (fun m => strIncludes l m)) with
  | none => jdChunkBySize opts doc
  | some detailsStart =>
    let methods := jdCollectMethods (lines.drop detailsStart)
    if methods.length < 3 then jdChunkBySize opts doc
    else jdGroupLoop opts doc header 0 [] 0 methods

/-- The continuation loop of the JavaDoc demo strategy. -/
def jdDemoLoop (opts : ChunkerOptions) (doc : Document) (header : String) :
    Nat → Nat → List String → List Chunk
  | _i, _k, [] => []
  | i, k, t :: rest =>
    if (jsTrim t).length < opts.min_chunk_size then jdDemoLoop opts doc header (i + 1) k rest
    else
      let text :=
        if 0 < i ∧ ¬ header.isEmpty ∧ ¬ t.startsWith "#" ∧ ¬ t.startsWith "```" then
          header ++ "\n\n" ++ t
        else t
      createChunk doc k text (some "demo") :: jdDemoLoop opts doc header (i + 1) (k + 1) rest

/-- JavaDocChunker.chunkDemo. -/
def jdChunkDemo (opts : ChunkerOptions) (doc : Document) : List Chunk :=
  if doc.content.length ≤ opts.chunk_size then [createChunk doc 0 doc.content (some "demo")]
  else
    jdDemoLoop opts doc (extractHeader doc.content) 0 0
      (splitProtected opts.chunk_size opts.min_chunk_size doc.content)

/-- The inner protected split loop of the JavaDoc docs strategy. -/
def jdDocsTexts (opts : ChunkerOptions) (doc : Document) :
    Nat → List String → List Chunk × Nat
  | k, [] => ([], k)
  | k, t :: rest =>
    if (jsTrim t).length < opts.min_chunk_size then jdDocsTexts opts doc k rest
    else
      let r := jdDocsTexts opts doc (k + 1) rest
      (createChunk doc k t (some "docs") :: r.1, r.2)

/-- The section loop of the JavaDoc docs strategy. -/
def jdDocsSections (opts : ChunkerOptions) (doc : Document) :
    Nat → List String → List Chunk × Nat
  | k, [] => ([], k)
  | k, s :: rest =>
    let r1 := jdDocsTexts opts doc k (splitProtected opts.chunk_size opts.min_chunk_size s)
    let r2 := jdDocsSections opts doc r1.2 rest
    (r1.1 ++ r2.1, r2.2)

/-- JavaDocChunker.chunkDocs: split at h2 or h3 headers, protect code. -/
def jdChunkDocs (opts : ChunkerOptions) (doc : Document) : List Chunk :=
  (jdDocsSections opts doc 0 (splitByHeaders 2 3 doc.content)).1

/-- JavaDocChunker.chunkDocument: dispatch on the document category. -/
def javadocChunkDocument (opts : ChunkerOptions) (doc : Document) : List Chunk :=
  match doc.category.getD "doc" with
  | "api" => jdChunkApi opts doc
  | "demo" => jdChunkDemo opts doc
  | _ => jdChunkDocs opts doc

/-! ## Chunker factory and the batch entry point
(src/embed/src/document/chunker.ts, chunkers/base.ts) -/

/-- The ChunkerType union of the configuration. -/
inductive ChunkerType where
  | markdown
  | typedoc
  | javadoc
deriving Repr, DecidableEq

/-- createChunker composed with chunkDocument of the chosen strategy. -/
def chunkDocumentOf : ChunkerType → ChunkerOptions → Document → List Chunk
  | .markdown => markdownChunkDocument
  | .typedoc => typedocChunkDocument
  | .javadoc => javadocChunkDocument

/-- The per-document body of BaseChunker.chunkDocuments: run the strategy,
stamp doc_toc on every chunk, then back-fill total_chunks. -/
def perDocChunks (ty : ChunkerType) (opts : ChunkerOptions) (doc : Document) : List Chunk :=
  let toc := extractToc doc.content
  let docChunks := (chunkDocumentOf ty opts doc).map (fun c => setDocToc c toc)
  docChunks.map (fun c => setTotalChunks c docChunks.length)

/-- BaseChunker.chunkDocuments. -/
def chunkDocuments (ty : ChunkerType) (opts : ChunkerOptions) (docs : List Document) :
    List Chunk :=
  (docs.map (perDocChunks ty opts)).flatten

/-! ## Theorems -/

/-- Entries surviving the cleanup are entries of the original window. -/
theorem mem_of_mem_cleanup {windowMs now : Int} {entries : List WindowEntry}
    {e : WindowEntry} (h : e ∈ cleanupEntries windowMs now entries) : e ∈ entries :=
  (List.mem_filter.mp h).1

/-- Entries surviving the cleanup are younger than one window. -/
theorem cleanup_young {windowMs now : Int} {entries : List WindowEntry}
    {e : WindowEntry} (h : e ∈ cleanupEntries windowMs now entries) :
    now - windowMs < e.timestamp := by
  have := (List.mem_filter.mp h).2
  simpa using this

/-- The retry-after seconds never exceed one window length, ceiled to
seconds, when the clock is monotone with respect to the entries. -/
theorem getRetryAfterSec_le_window {windowMs now : Int} {entries : List WindowEntry}
    (hclock : ∀ e ∈ entries, e.timestamp ≤ now) :
    getRetryAfterSec windowMs now entries ≤ ((windowMs + 999).fdiv 1000).toNat := by
  unfold getRetryAfterSec
  cases hw : windowEarliest windowMs now entries with
  | none => exact Nat.zero_le _
  | some t0 =>
    unfold windowEarliest at hw
    cases hh : (cleanupEntries windowMs now entries).head? with
    | none => simp [hh] at hw
    | some e0 =>
      have he0 : e0 ∈ cleanupEntries windowMs now entries := List.mem_of_mem_head? hh
      have ht0 : t0 = e0.timestamp := by
        simp [hh] at hw
        omega
      have h1 : e0.timestamp ≤ now := hclock e0 (mem_of_mem_cleanup he0)
      have harg : t0 + windowMs - now + 999 ≤ windowMs + 999 := by omega
      have hdiv : (t0 + windowMs - now + 999).fdiv 1000 ≤ (windowMs + 999).fdiv 1000 := by
        rw [Int.fdiv_eq_ediv _ (by norm_num), Int.fdiv_eq_ediv _ (by norm_num)]
        exact Int.ediv_le_ediv (by norm_num) harg
      have : max 0 ((t0 + windowMs - now + 999).fdiv 1000) ≤
          max 0 ((windowMs + 999).fdiv 1000) := by
        exact max_le_max le_rfl hdiv
      calc (max 0 ((t0 + windowMs - now + 999).fdiv 1000)).toNat
          ≤ (max 0 ((windowMs + 999).fdiv 1000)).toNat := Int.toNat_le_toNat this
        _ = ((windowMs + 999).fdiv 1000).toNat := by
            rcases le_or_lt 0 ((windowMs + 999).fdiv 1000) with hpos | hneg
            · rw [max_eq_right hpos]
            · rw [max_eq_left hneg.le]
              simp [Int.toNat_of_nonpos hneg.le]

/-- C4.  RateLimiter.check throws exactly when the sliding-window request
count has reached the request ceiling or the window tokens plus the new
tokens exceed the token ceiling; the error carries the retry-after of the
violating window, which equals max 0 of the ceiled seconds until the
earliest live entry leaves the window, and which is at most one window
length when no entry lies in the future. -/
theorem rateLimiterCheck_spec (st : RateLimiterState) (now : Int) (tokenCount : Nat)
    (hclock : ∀ e ∈ st.rpm ++ st.tpm, e.timestamp ≤ now) :
    ((∃ e, rateLimiterCheck st now tokenCount = .error e) ↔
      (st.rpmLimit ≤ windowCount st.windowMs now st.rpm ∨
       st.tpmLimit < windowCount st.windowMs now st.tpm + tokenCount)) ∧
    (∀ entries t0, windowEarliest st.windowMs now entries = some t0 →
      getRetryAfterSec st.windowMs now entries =
        (max 0 ((t0 + st.windowMs - now + 999).fdiv 1000)).toNat) ∧
    (∀ e, rateLimiterCheck st now tokenCount = .error e →
      ((st.rpmLimit ≤ windowCount st.windowMs now st.rpm ∧
        e.retryAfterSec = getRetryAfterSec st.windowMs now st.rpm) ∨
       (windowCount st.windowMs now st.rpm < st.rpmLimit ∧
        st.tpmLimit < windowCount st.windowMs now st.tpm + tokenCount ∧
        e.retryAfterSec = getRetryAfterSec st.windowMs now st.tpm)) ∧
      e.retryAfterSec ≤ ((st.windowMs + 999).fdiv 1000).toNat) := by
  have hrpm : ∀ e ∈ st.rpm, e.timestamp ≤ now := fun e he =>
    hclock e (List.mem_append.mpr (Or.inl he))
  have htpm : ∀ e ∈ st.tpm, e.timestamp ≤ now := fun e he =>
    hclock e (List.mem_append.mpr (Or.inr he))
  refine ⟨?_, ?_, ?_⟩
  · constructor
    · rintro ⟨e, he⟩
      unfold rateLimiterCheck at he
      by_cases h1 : st.rpmLimit ≤ windowCount st.windowMs now st.rpm
      · exact Or.inl h1
      · by_cases h2 : st.tpmLimit < windowCount st.windowMs now st.tpm + tokenCount
        · exact Or.inr h2
        · simp only [if_neg h1, if_neg h2] at he
          simp at he
    · intro h
      unfold rateLimiterCheck
      by_cases h1 : st.rpmLimit ≤ windowCount st.windowMs now st.rpm
      · refine ⟨⟨"Rate limit exceeded: requests per minute",
          getRetryAfterSec st.windowMs now st.rpm⟩, ?_⟩
        rw [if_pos h1]
      · have h2 : st.tpmLimit < windowCount st.windowMs now st.tpm + tokenCount := by
          rcases h with h | h
          · exact absurd h h1
          · exact h
        refine ⟨⟨"Rate limit exceeded: tokens per minute",
          getRetryAfterSec st.windowMs now st.tpm⟩, ?_⟩
        rw [if_neg h1, if_pos h2]
  · intro entries t0 hw
    unfold getRetryAfterSec
    rw [hw]
  · intro e he
    unfold rateLimiterCheck at he
    by_cases h1 : st.rpmLimit ≤ windowCount st.windowMs now st.rpm
    · simp only [if_pos h1] at he
      have heq : e = ⟨"Rate limit exceeded: requests per minute",
          getRetryAfterSec st.windowMs now st.rpm⟩ := by
        cases he
        rfl
      subst heq
      exact ⟨Or.inl ⟨h1, rfl⟩, getRetryAfterSec_le_window hrpm⟩
    · by_cases h2 : st.tpmLimit < windowCount st.windowMs now st.tpm + tokenCount
      · simp only [if_neg h1, if_pos h2] at he
        have heq : e = ⟨"Rate limit exceeded: tokens per minute",
            getRetryAfterSec st.windowMs now st.tpm⟩ := by
          cases he
          rfl
        subst heq
        exact ⟨Or.inr ⟨Nat.lt_of_not_le h1, h2, rfl⟩, getRetryAfterSec_le_window htpm⟩
      · simp only [if_neg h1, if_neg h2] at he
        simp at he

/-- C4 witness: a window of one request against a ceiling of one makes the
next check fail, at a concrete state satisfying the clock hypothesis. -/
theorem rateLimiterCheck_spec_witness :
    ∃ e, rateLimiterCheck ⟨1, 100, 60000, [⟨0, 1⟩], [⟨0, 1⟩]⟩ 500 10 = .error e :=
  (rateLimiterCheck_spec ⟨1, 100, 60000, [⟨0, 1⟩], [⟨0, 1⟩]⟩ 500 10 (by decide)).1.mpr
    (by decide)

/-- Does the key avoid every prepared point id of the batch. -/
def keyAvoids (ps : List StoredPoint) (k : String) : Bool :=
  ps.all (fun p => ¬ k = p.id)

/-- Applying a batch of stored points splits the collection into the
surviving old entries and the batch entries in last-write order. -/
theorem applyBatch_eq (coll : List (String × StoredPoint)) (ps : List StoredPoint) :
    ps.foldl insertPoint coll =
      coll.filter (fun kv => keyAvoids ps kv.1) ++ ps.foldl insertPoint [] := by
  induction ps generalizing coll with
  | nil => simp [keyAvoids]
  | cons p t ih =>
    have hsingle : t.foldl insertPoint (insertPoint [] p) =
        ([(p.id, p)].filter (fun kv => keyAvoids t kv.1)) ++ t.foldl insertPoint [] := by
      have := ih (insertPoint [] p)
      simpa [insertPoint] using this
    calc (p :: t).foldl insertPoint coll
        = t.foldl insertPoint (insertPoint coll p) := by simp
      _ = (insertPoint coll p).filter (fun kv => keyAvoids t kv.1) ++ t.foldl insertPoint [] :=
          ih _
      _ = coll.filter (fun kv => keyAvoids (p :: t) kv.1) ++
          (([(p.id, p)].filter (fun kv => keyAvoids t kv.1)) ++ t.foldl insertPoint []) := by
          rw [insertPoint, List.filter_append, List.filter_filter, List.append_assoc]
          have hpred : (fun (a : String × StoredPoint) =>
              keyAvoids t a.1 && decide (a.1 ≠ p.id)) =
              (fun kv => keyAvoids (p :: t) kv.1) := by
            funext kv
            simp [keyAvoids, Bool.and_comm]
          rw [hpred]
      _ = coll.filter (fun kv => keyAvoids (p :: t) kv.1) ++
          (p :: t).foldl insertPoint [] := by rw [← hsingle]; simp

/-- Every entry produced by applying a batch is an old entry or carries
the id of some batch point. -/
theorem mem_applyBatch (coll : List (String × StoredPoint)) (ps : List StoredPoint)
    (kv : String × StoredPoint) (h : kv ∈ ps.foldl insertPoint coll) :
    kv ∈ coll ∨ ∃ p ∈ ps, kv.1 = p.id := by
  induction ps generalizing coll with
  | nil => exact Or.inl (by simpa using h)
  | cons p t ih =>
    have h1 := ih (insertPoint coll p) (by simpa using h)
    rcases h1 with h1 | h1
    · unfold insertPoint at h1
      rcases List.mem_append.mp h1 with h2 | h2
      · exact Or.inl (List.mem_filter.mp h2).1
      · refine Or.inr ⟨p, List.mem_cons_self _ _, ?_⟩
        simp at h2
        rw [h2]
    · rcases h1 with ⟨q, hq, hkv⟩
      exact Or.inr ⟨q, List.mem_cons_of_mem _ hq, hkv⟩

/-- Applying the same batch of stored points twice equals applying it once. -/
theorem applyBatch_idempotent (coll : List (String × StoredPoint))
    (ps : List StoredPoint) :
    ps.foldl insertPoint (ps.foldl insertPoint coll) = ps.foldl insertPoint coll := by
  rw [applyBatch_eq coll ps, applyBatch_eq (coll.filter (fun kv => keyAvoids ps kv.1) ++
    ps.foldl insertPoint []) ps]
  rw [List.filter_append, List.filter_filter]
  have h1 : (coll.filter (fun kv => keyAvoids ps kv.1 && keyAvoids ps kv.1)) =
      coll.filter (fun kv => keyAvoids ps kv.1) := by
    apply List.filter_congr
    intro kv _
    cases keyAvoids ps kv.1 <;> rfl
  have h2 : ((ps.foldl insertPoint []).filter (fun kv => keyAvoids ps kv.1)) = [] := by
    rw [List.filter_eq_nil_iff]
    intro kv hkv
    rcases mem_applyBatch [] ps kv hkv with h | ⟨p, hp, hid⟩
    · simp at h
    · simp only [keyAvoids, Bool.not_eq_true]
      rw [List.all_eq_false]
      exact ⟨p, hp, by simp [hid]⟩
  rw [h1, h2, List.append_nil]

/-- C3.  The point id written on upsert is stringToUuid of the chunk string
id, a pure function, so repeating an upsert writes exactly the same ids;
and replaying the same point list leaves the collection unchanged. -/
theorem upsert_ids_pure_and_idempotent (md5Hex : String → String)
    (coll : List (String × StoredPoint)) (points : List UpsertPoint) :
    ((qdrantUpsert md5Hex points).flatMap (fun call => call.points)).map (fun p => p.id) =
      points.map (fun p => stringToUuid md5Hex p.id) ∧
    applyUpsert md5Hex (applyUpsert md5Hex coll points) points =
      applyUpsert md5Hex coll points := by
  constructor
  · unfold qdrantUpsert
    by_cases h : points.isEmpty
    · rw [if_pos h]
      rw [List.isEmpty_iff] at h
      simp [h]
    · rw [if_neg h]
      simp [preparePoint]
  · unfold applyUpsert qdrantUpsert
    by_cases h : points.isEmpty
    · rw [if_pos h]
      simp
    · rw [if_neg h]
      simp only [List.foldl_cons, List.foldl_nil]
      exact applyBatch_idempotent coll (points.map (preparePoint md5Hex))

/-- C7 counterexample: an upsert of 33 points issues exactly one underlying
store call carrying all 33 points, not sub-batches of at most 32. -/
theorem upsert_33_points_one_call :
    ((qdrantUpsert (fun _ => "0123456789abcdef0123456789abcdef")
        ((List.range 33).map (fun i => ⟨toString i, ⟨[], "", ""⟩, []⟩))).map
      (fun call => call.points.length)) = [33] ∧ 32 < 33 := by
  constructor
  · rfl
  · decide

/-- C7 amended.  A nonempty upsert issues exactly one underlying store call
with wait set, carrying every given point prepared with its hash-derived
UUID id, its named vectors, and its payload extended with chunk_id. -/
theorem upsert_single_call (md5Hex : String → String) (points : List UpsertPoint)
    (h : points ≠ []) :
    qdrantUpsert md5Hex points = [⟨true, points.map (preparePoint md5Hex)⟩] := by
  unfold qdrantUpsert
  rw [if_neg (by simpa using h)]

/-- C7 amended witness at a concrete one-point upsert. -/
theorem upsert_single_call_witness :
    qdrantUpsert (fun _ => "0123456789abcdef0123456789abcdef")
        [⟨"c1", ⟨[1], "t", "m"⟩, []⟩] =
      [⟨true, [⟨"01234567-89ab-cdef-0123-456789abcdef", ⟨[1], "t", "m"⟩,
        [("chunk_id", "c1")]⟩]⟩] := by
  rw [upsert_single_call (fun _ => "0123456789abcdef0123456789abcdef")
    [⟨"c1", ⟨[1], "t", "m"⟩, []⟩] (List.cons_ne_nil _ _)]
  rfl

/-- A successful embed attempt returns one result per input text, in input
order, each carrying its input text. -/
theorem embedAttempt_ok_texts (cfg : EmbedderConfig) (env : Nat → EmbedAttemptOutcome)
    (texts : List String) (attempt : Nat) (r : List EmbedResult)
    (h : embedAttempt cfg env texts attempt = .ok r) :
    r.map (fun x => x.text) = texts := by
  unfold embedAttempt at h
  cases henv : env attempt with
  | rateLimit s =>
    rw [henv] at h
    dsimp only at h
    exact absurd h (by simp)
  | failure m =>
    rw [henv] at h
    dsimp only at h
    exact absurd h (by simp)
  | response data =>
    rw [henv] at h
    dsimp only at h
    cases hfind : (texts.enum.map
        (fun it => (⟨it.2, data.getD it.1 [], estimateTokens it.2⟩ : EmbedResult))).find?
        (fun r => r.embedding.length ≠ cfg.embeddingDim) with
    | some bad =>
      rw [hfind] at h
      exact absurd h (by simp)
    | none =>
      rw [hfind] at h
      have hr : r = texts.enum.map
          (fun it => (⟨it.2, data.getD it.1 [], estimateTokens it.2⟩ : EmbedResult)) := by
        cases h
        rfl
      subst hr
      rw [List.map_map]
      have : ((fun (x : EmbedResult) => x.text) ∘
          (fun (it : Nat × String) => (⟨it.2, data.getD it.1 [], estimateTokens it.2⟩ :
            EmbedResult))) = Prod.snd := by
        funext it
        rfl
      rw [this, List.enum_map_snd]

/-- The retry wrapper only ever returns results produced by an attempt on
the same texts, so a success is aligned with the input texts. -/
theorem embedBatchWithRetry_ok_texts (cfg : EmbedderConfig) (env : Nat → EmbedAttemptOutcome)
    (texts : List String) :
    ∀ fuel attempt, cfg.maxRetries - attempt ≤ fuel →
      ∀ r, (embedBatchWithRetry cfg env texts attempt).1 = .ok r →
        r.map (fun x => x.text) = texts := by
  intro fuel
  induction fuel with
  | zero =>
    intro attempt hle r hok
    rw [embedBatchWithRetry] at hok
    cases hatt : embedAttempt cfg env texts attempt with
    | ok r0 =>
      rw [hatt] at hok
      dsimp only at hok
      simp at hok
      subst hok
      exact embedAttempt_ok_texts cfg env texts attempt r0 hatt
    | error ev =>
      rw [hatt] at hok
      dsimp only at hok
      by_cases hc : attempt < cfg.maxRetries ∧ isRetryableCaught ev = true
      · exact absurd hc.1 (by omega)
      · rw [dif_neg hc] at hok
        cases ev with
        | rateLimitErr s => simp at hok
        | errMsg m => simp at hok
  | succ n ih =>
    intro attempt hle r hok
    rw [embedBatchWithRetry] at hok
    cases hatt : embedAttempt cfg env texts attempt with
    | ok r0 =>
      rw [hatt] at hok
      dsimp only at hok
      simp at hok
      subst hok
      exact embedAttempt_ok_texts cfg env texts attempt r0 hatt
    | error ev =>
      rw [hatt] at hok
      dsimp only at hok
      by_cases hc : attempt < cfg.maxRetries ∧ isRetryableCaught ev = true
      · rw [dif_pos hc] at hok
        dsimp only at hok
        exact ih (attempt + 1) (by omega) r hok
      · rw [dif_neg hc] at hok
        cases ev with
        | rateLimitErr s => simp at hok
        | errMsg m => simp at hok

/-- The dynamic batching loop preserves the order and identity of the
texts: a success returns the accumulated texts, the open batch and the
remaining texts, in order. -/
theorem embedLoop_ok_texts (cfg : EmbedderConfig)
    (env : List String → Nat → EmbedAttemptOutcome) :
    ∀ (remaining batch : List String) (batchTokens : Nat) (acc : List EmbedResult)
      (r : List EmbedResult),
      embedLoop cfg env remaining batch batchTokens acc = .ok r →
      r.map (fun x => x.text) = acc.map (fun x => x.text) ++ batch ++ remaining := by
  intro remaining
  induction remaining with
  | nil =>
    intro batch batchTokens acc r h
    unfold embedLoop at h
    by_cases hb : batch.isEmpty
    · rw [if_pos hb] at h
      rw [List.isEmpty_iff] at hb
      simp at h
      subst h
      simp [hb]
    · rw [if_neg hb] at h
      cases hret : (embedBatchWithRetry cfg (env batch) batch 1).1 with
      | error e => rw [hret] at h; exact absurd h (by simp)
      | ok rs =>
        rw [hret] at h
        simp at h
        subst h
        have := embedBatchWithRetry_ok_texts cfg (env batch) batch
          (cfg.maxRetries - 1) 1 le_rfl rs hret
        simp [this]
  | cons text rest ih =>
    intro batch batchTokens acc r h
    unfold embedLoop at h
    by_cases hcond : ¬batch.isEmpty ∧
        (MAX_BATCH_TOKENS < batchTokens + estimateTokens text ∨ cfg.batchSize ≤ batch.length)
    · rw [if_pos hcond] at h
      cases hret : (embedBatchWithRetry cfg (env batch) batch 1).1 with
      | error e => rw [hret] at h; exact absurd h (by simp)
      | ok rs =>
        rw [hret] at h
        have hrs := embedBatchWithRetry_ok_texts cfg (env batch) batch
          (cfg.maxRetries - 1) 1 le_rfl rs hret
        have := ih [text] (estimateTokens text) (acc ++ rs) r h
        rw [this]
        simp [hrs]
    · rw [if_neg hcond] at h
      have := ih (batch ++ [text]) (batchTokens + estimateTokens text) acc r h
      rw [this]
      simp

/-- C10.  embedBatch returns exactly one result per input text, in input
order, with each text field equal to the corresponding input; this is the
alignment the indexer relies on when zipping chunks with embeddings. -/
theorem embedBatch_alignment (cfg : EmbedderConfig)
    (env : List String → Nat → EmbedAttemptOutcome) (texts : List String)
    (r : List EmbedResult) (h : embedBatch cfg env texts = .ok r) :
    r.map (fun x => x.text) = texts ∧ r.length = texts.length := by
  have hmap : r.map (fun x => x.text) = texts := by
    unfold embedBatch at h
    by_cases ht : texts.isEmpty
    · rw [if_pos ht] at h
      rw [List.isEmpty_iff] at ht
      simp at h
      subst h
      simp [ht]
    · rw [if_neg ht] at h
      have := embedLoop_ok_texts cfg env texts [] 0 [] r h
      simpa using this
  refine ⟨hmap, ?_⟩
  have := congrArg List.length hmap
  simpa using this

/-- C10 witness at a concrete two-text batch with a successful response. -/
theorem embedBatch_alignment_witness :
    ([⟨"a", [1], 1⟩, ⟨"b", [2], 1⟩] : List EmbedResult).map (fun x => x.text) = ["a", "b"] ∧
    ([⟨"a", [1], 1⟩, ⟨"b", [2], 1⟩] : List EmbedResult).length =
      (["a", "b"] : List String).length :=
  embedBatch_alignment ⟨"m", 1, 128, 3, 1000⟩ (fun _ _ => .response [[1], [2]]) ["a", "b"]
    [⟨"a", [1], 1⟩, ⟨"b", [2], 1⟩]
    (by
      simp [embedBatch, embedLoop, embedBatchWithRetry, embedAttempt, estimateTokens,
        MAX_BATCH_TOKENS, isCjkChar, List.enum]
      rfl)

/-- A failing rerank call on a nonempty candidate list returns the
documents unchanged and logs the warning. -/
theorem rerankCall_failed (outcome : Nat → RerankOutcome) (query : String)
    (docs : List InternalSearchResult) (topK : Nat) (hne : docs ≠ [])
    (hfail : ∀ d, outcome 0 ≠ .ok d) :
    rerankCall outcome query docs topK = (docs, true) := by
  unfold rerankCall
  rw [if_neg (by simpa using hne)]
  cases hout : outcome 0 with
  | ok d => exact absurd hout (hfail d)
  | httpError s b => rfl
  | missingData => rfl
  | networkError m => rfl

/-- C8 counterexample: with a first attempt failing on a network timeout and
a second attempt that would succeed, the reranker still falls back to the
input order after the single attempt, while the embedder retry wrapper,
facing the analogous attempt outcomes, succeeds on its second attempt after
a one second backoff.  The retry policies are therefore not equivalent. -/
theorem rerank_no_retry_counterexample :
    rerankCall (fun n => if n = 0 then .networkError "timeout" else .ok [(0, 1)]) "q"
        [⟨"c1", 1, "text", [], some "d1", none⟩] 10 =
      ([⟨"c1", 1, "text", [], some "d1", none⟩], true) ∧
    embedBatchWithRetry ⟨"m", 1, 128, 3, 1000⟩
        (fun attempt => if attempt = 1 then .failure "timeout" else .response [[5]])
        ["t"] 1 =
      (.ok [⟨"t", [5], 1⟩], [1000]) := by
  constructor
  · rfl
  · rw [embedBatchWithRetry]
    have hatt1 : embedAttempt ⟨"m", 1, 128, 3, 1000⟩
        (fun attempt => if attempt = 1 then .failure "timeout" else .response [[5]])
        ["t"] 1 = .error (.errMsg "timeout") := rfl
    rw [hatt1]
    dsimp only
    rw [dif_pos ⟨by norm_num, by decide⟩]
    rw [embedBatchWithRetry]
    have hatt2 : embedAttempt ⟨"m", 1, 128, 3, 1000⟩
        (fun attempt => if attempt = 1 then .failure "timeout" else .response [[5]])
        ["t"] 2 = .ok [⟨"t", [5], 1⟩] := rfl
    rw [hatt2]
    norm_num

/-- C8 amended.  The rerank operation makes exactly one attempt: on any
failure outcome of the single call it immediately falls back to returning
the input documents in order, with a warning; the embedder, by contrast,
retries a retryable failure while below maxRetries, sleeping
retryDelay times two to the power attempt minus one before the retry. -/
theorem rerank_single_attempt_embedder_retries :
    (∀ (outcome : Nat → RerankOutcome) (query : String)
        (docs : List InternalSearchResult) (topK : Nat),
      docs ≠ [] → (∀ d, outcome 0 ≠ .ok d) →
      rerankCall outcome query docs topK = (docs, true)) ∧
    (∀ (cfg : EmbedderConfig) (env : Nat → EmbedAttemptOutcome) (texts : List String)
        (attempt : Nat) (ev : CaughtError),
      embedAttempt cfg env texts attempt = .error ev →
      attempt < cfg.maxRetries → isRetryableCaught ev = true →
      embedBatchWithRetry cfg env texts attempt =
        ((embedBatchWithRetry cfg env texts (attempt + 1)).1,
         cfg.retryDelay * 2 ^ (attempt - 1) ::
           (embedBatchWithRetry cfg env texts (attempt + 1)).2)) := by
  constructor
  · exact rerankCall_failed
  · intro cfg env texts attempt ev hatt hlt hretry
    rw [embedBatchWithRetry]
    rw [hatt]
    dsimp only
    rw [dif_pos ⟨hlt, hretry⟩]

/-- C8 amended witness: the rerank fallback at a concrete failing outcome,
and the embedder one-step retry at a concrete retryable failure. -/
theorem rerank_single_attempt_witness :
    rerankCall (fun _ => .missingData) "q" [⟨"c1", 1, "text", [], some "d1", none⟩] 10 =
      ([⟨"c1", 1, "text", [], some "d1", none⟩], true) ∧
    embedBatchWithRetry ⟨"m", 1, 128, 3, 1000⟩ (fun _ => .failure "timeout") ["t"] 1 =
      ((embedBatchWithRetry ⟨"m", 1, 128, 3, 1000⟩ (fun _ => .failure "timeout") ["t"] 2).1,
       1000 * 2 ^ (1 - 1) ::
         (embedBatchWithRetry ⟨"m", 1, 128, 3, 1000⟩ (fun _ => .failure "timeout") ["t"] 2).2) := by
  constructor
  · exact rerank_single_attempt_embedder_retries.1 (fun _ => .missingData) "q"
      [⟨"c1", 1, "text", [], some "d1", none⟩] 10 (by simp) (fun d => by simp)
  · exact rerank_single_attempt_embedder_retries.2 ⟨"m", 1, 128, 3, 1000⟩
      (fun _ => .failure "timeout") ["t"] 1 (.errMsg "timeout") (by rfl) (by norm_num)
      (by rfl)

/-- C1.  Fusion mode selection: when the detected query language equals the
declared collection document language the searcher issues the hybrid query
(dense plus BM25 with server-side RRF at the configured k) and the response
carries fusion_mode rrf; otherwise it issues the dense-only query with the
configured dense score threshold and the response carries fusion_mode
dense_only. -/
theorem fusion_mode_selection (cfg : SearcherConfig) (env : SearchEnv) (query : String)
    (limit : Option Nat) (useRerank : Option Bool) :
    ((detectLanguage env.franc query Language.en).code = cfg.docLanguage →
      (ragSearch cfg env query limit useRerank).response.fusion_mode = "rrf" ∧
      (ragSearch cfg env query limit useRerank).issued =
        .hybrid cfg.collection (env.embed query) query
          (if useRerank ≠ some false ∧ cfg.hasReranker = true then cfg.prefetchLimit
           else limit.getD cfg.rerankTopK)
          cfg.rrfK) ∧
    ((detectLanguage env.franc query Language.en).code ≠ cfg.docLanguage →
      (ragSearch cfg env query limit useRerank).response.fusion_mode = "dense_only" ∧
      (ragSearch cfg env query limit useRerank).issued =
        .dense cfg.collection (env.embed query)
          (if useRerank ≠ some false ∧ cfg.hasReranker = true then cfg.prefetchLimit
           else limit.getD cfg.rerankTopK)
          cfg.denseScoreThreshold) := by
  constructor
  · intro hlang
    unfold ragSearch fusionStage
    simp only [hlang]
    simp
  · intro hlang
    unfold ragSearch fusionStage
    simp only [if_neg hlang]
    simp [hlang]

/-- C1 witness: a concrete English query against an English collection gets
the hybrid query and rrf; the same query against a Chinese collection gets
the dense-only query with the threshold and dense_only. -/
theorem fusion_mode_selection_witness :
    ((ragSearch ⟨"coll", "en", 20, 10, 3 / 10, 60, true⟩
        ⟨fun _ => "eng", fun _ => [1], fun _ _ _ _ => [], fun _ _ _ => [],
          fun _ => .missingData⟩
        "hello world query" none none).response.fusion_mode = "rrf" ∧
      (ragSearch ⟨"coll", "en", 20, 10, 3 / 10, 60, true⟩
        ⟨fun _ => "eng", fun _ => [1], fun _ _ _ _ => [], fun _ _ _ => [],
          fun _ => .missingData⟩
        "hello world query" none none).issued =
        .hybrid "coll" [1] "hello world query" 20 60) ∧
    ((ragSearch ⟨"coll", "zh", 20, 10, 3 / 10, 60, true⟩
        ⟨fun _ => "eng", fun _ => [1], fun _ _ _ _ => [], fun _ _ _ => [],
          fun _ => .missingData⟩
        "hello world query" none none).response.fusion_mode = "dense_only" ∧
      (ragSearch ⟨"coll", "zh", 20, 10, 3 / 10, 60, true⟩
        ⟨fun _ => "eng", fun _ => [1], fun _ _ _ _ => [], fun _ _ _ => [],
          fun _ => .missingData⟩
        "hello world query" none none).issued =
        .dense "coll" [1] 20 (3 / 10)) := by
  constructor
  · have h := (fusion_mode_selection ⟨"coll", "en", 20, 10, 3 / 10, 60, true⟩
      ⟨fun _ => "eng", fun _ => [1], fun _ _ _ _ => [], fun _ _ _ => [],
        fun _ => .missingData⟩
      "hello world query" none none).1 (by decide)
    simpa using h
  · have h := (fusion_mode_selection ⟨"coll", "zh", 20, 10, 3 / 10, 60, true⟩
      ⟨fun _ => "eng", fun _ => [1], fun _ _ _ _ => [], fun _ _ _ => [],
        fun _ => .missingData⟩
      "hello world query" none none).2 (by decide)
    simpa using h

/-- C5.  Rerank absorption: with a reranker configured, rerank not
disabled, nonempty fusion candidates and a failing rerank call, search does
not fail; it returns the fusion candidates in their original order,
truncated to the limit and shaped as usual, the response still carries
rerank_used true, and the warning is logged. -/
theorem rerank_absorption (cfg : SearcherConfig) (env : SearchEnv) (query : String)
    (limit : Option Nat) (useRerank : Option Bool)
    (hr : cfg.hasReranker = true) (hu : useRerank ≠ some false)
    (hfail : ∀ d, env.rerankOutcome 0 ≠ .ok d)
    (hne : mapQdrantResults (fusionStage cfg env query (env.embed query) cfg.prefetchLimit
      (decide ((detectLanguage env.franc query Language.en).code = cfg.docLanguage))).1 ≠ []) :
    (ragSearch cfg env query limit useRerank).response.rerank_used = true ∧
    (ragSearch cfg env query limit useRerank).rerankWarned = true ∧
    (ragSearch cfg env query limit useRerank).response.results =
      shapeResults ((mapQdrantResults
        (fusionStage cfg env query (env.embed query) cfg.prefetchLimit
          (decide ((detectLanguage env.franc query Language.en).code =
            cfg.docLanguage))).1).take (limit.getD cfg.rerankTopK)) := by
  have hra : useRerank ≠ some false ∧ cfg.hasReranker = true := ⟨hu, hr⟩
  unfold ragSearch
  simp only [if_pos hra]
  rw [rerankCall_failed _ _ _ _ hne hfail]
  refine ⟨by simp [hra], rfl, rfl⟩

/-- C5 witness: one concrete candidate, failing reranker, search still
returns it with rerank_used true and the warning logged. -/
theorem rerank_absorption_witness :
    (ragSearch ⟨"coll", "en", 20, 10, 3 / 10, 60, true⟩
        ⟨fun _ => "eng", fun _ => [1],
          fun _ _ _ _ => [⟨"p1", 1, some ⟨some "c1", some "text", some "d1", []⟩⟩],
          fun _ _ _ => [], fun _ => .networkError "boom"⟩
        "hello world query" none none).response.rerank_used = true ∧
    (ragSearch ⟨"coll", "en", 20, 10, 3 / 10, 60, true⟩
        ⟨fun _ => "eng", fun _ => [1],
          fun _ _ _ _ => [⟨"p1", 1, some ⟨some "c1", some "text", some "d1", []⟩⟩],
          fun _ _ _ => [], fun _ => .networkError "boom"⟩
        "hello world query" none none).rerankWarned = true ∧
    (ragSearch ⟨"coll", "en", 20, 10, 3 / 10, 60, true⟩
        ⟨fun _ => "eng", fun _ => [1],
          fun _ _ _ _ => [⟨"p1", 1, some ⟨some "c1", some "text", some "d1", []⟩⟩],
          fun _ _ _ => [], fun _ => .networkError "boom"⟩
        "hello world query" none none).response.results =
      shapeResults ((mapQdrantResults
        (fusionStage ⟨"coll", "en", 20, 10, 3 / 10, 60, true⟩
          ⟨fun _ => "eng", fun _ => [1],
            fun _ _ _ _ => [⟨"p1", 1, some ⟨some "c1", some "text", some "d1", []⟩⟩],
            fun _ _ _ => [], fun _ => .networkError "boom"⟩
          "hello world query"
          ((⟨fun _ => "eng", fun _ => [1],
            fun _ _ _ _ => [⟨"p1", 1, some ⟨some "c1", some "text", some "d1", []⟩⟩],
            fun _ _ _ => [], fun _ => .networkError "boom"⟩ : SearchEnv).embed
              "hello world query")
          20
          (decide ((detectLanguage (fun _ => "eng") "hello world query" Language.en).code =
            "en"))).1).take 10) :=
  rerank_absorption ⟨"coll", "en", 20, 10, 3 / 10, 60, true⟩
    ⟨fun _ => "eng", fun _ => [1],
      fun _ _ _ _ => [⟨"p1", 1, some ⟨some "c1", some "text", some "d1", []⟩⟩],
      fun _ _ _ => [], fun _ => .networkError "boom"⟩
    "hello world query" none none rfl (by simp) (fun d => by simp) (by decide)

/-- Conditionally replacing at a key that occurs nowhere is the identity. -/
theorem map_replace_not_mem {α β : Type} [DecidableEq α] (t : List (α × β)) (key : α)
    (v : β) (h : key ∉ t.map Prod.fst) :
    t.map (fun kv => if kv.1 = key then (kv.1, v) else kv) = t := by
  induction t with
  | nil => rfl
  | cons kv t ih =>
    obtain ⟨k, b⟩ := kv
    simp only [List.map_cons] at h ⊢
    rw [if_neg (fun he => h (by simp [he])), ih (fun hm => h (List.mem_cons_of_mem _ hm))]

/-- Replacing the value at a looked-up key with the looked-up value is the
identity when the keys are distinct. -/
theorem map_replace_lookup_eq_self {α β : Type} [DecidableEq α]
    (st : List (α × β)) (key : α) (v : β)
    (hnodup : (st.map Prod.fst).Nodup) (hkey : st.lookup key = some v) :
    st.map (fun kv => if kv.1 = key then (kv.1, v) else kv) = st := by
  induction st with
  | nil => rfl
  | cons kv t ih =>
    obtain ⟨k, b⟩ := kv
    simp only [List.map_cons] at hnodup ⊢
    have hnd := List.nodup_cons.mp hnodup
    by_cases hk : k = key
    · subst hk
      have hv : v = b := by
        rw [List.lookup_cons] at hkey
        rw [beq_self_eq_true] at hkey
        simp at hkey
        exact hkey.symm
      subst hv
      rw [if_pos rfl, map_replace_not_mem t k v hnd.1]
    · rw [if_neg hk]
      have hkey2 : t.lookup key = some v := by
        rw [List.lookup_cons] at hkey
        have hne : (key == k) = false := beq_eq_false_iff_ne.mpr (fun he => hk he.symm)
        rw [hne] at hkey
        exact hkey
      rw [ih hnd.2 hkey2]

/-- C6.  A request to a registered product endpoint carrying a session id
that is not in that product session map, including an id issued by another
product, gets the 404 JSON-RPC error with code -32001 and the
re-initialize message, and no session state of any product changes. -/
theorem session_not_found_rejected (st : List (String × List (String × SessionData)))
    (productId : String) (now : Int) (newSessionId : String) (req : McpRequest)
    (sessions : List (String × SessionData)) (sid : String)
    (hnodup : (st.map Prod.fst).Nodup)
    (hprod : st.lookup productId = some sessions)
    (hsid : req.sessionHeader = some sid)
    (hunknown : sessions.lookup sid = none) :
    (routeMcpRequest st productId now newSessionId req).1 =
      .jsonRpcErr 404 (-32001) "Session not found. Client must re-initialize." ∧
    (routeMcpRequest st productId now newSessionId req).2 = st := by
  have hhandler : handleMcpRequest sessions now newSessionId req =
      (.jsonRpcErr 404 (-32001) "Session not found. Client must re-initialize.", sessions) := by
    unfold handleMcpRequest
    rw [hsid]
    dsimp only
    rw [if_neg (by simp [hunknown])]
  constructor
  · unfold routeMcpRequest
    rw [hprod]
    simp [hhandler]
  · unfold routeMcpRequest
    rw [hprod]
    simp only [hhandler]
    exact map_replace_lookup_eq_self st productId sessions hnodup hprod

/-- C6 witness: a session id issued by product a is rejected at the
endpoint of product b with 404 and code -32001, state unchanged; the same
holds for a never-issued session id. -/
theorem session_not_found_rejected_witness :
    (routeMcpRequest [("a", [("s1", ⟨0, none⟩)]), ("b", [])] "b" 100 "fresh"
        ⟨some "s1", false, none⟩).1 =
      .jsonRpcErr 404 (-32001) "Session not found. Client must re-initialize." ∧
    (routeMcpRequest [("a", [("s1", ⟨0, none⟩)]), ("b", [])] "b" 100 "fresh"
        ⟨some "s1", false, none⟩).2 = [("a", [("s1", ⟨0, none⟩)]), ("b", [])] ∧
    (routeMcpRequest [("a", [("s1", ⟨0, none⟩)]), ("b", [])] "a" 100 "fresh"
        ⟨some "deadbeef", false, none⟩).1 =
      .jsonRpcErr 404 (-32001) "Session not found. Client must re-initialize." := by
  refine ⟨?_, ?_, ?_⟩
  · exact (session_not_found_rejected [("a", [("s1", ⟨0, none⟩)]), ("b", [])] "b" 100 "fresh"
      ⟨some "s1", false, none⟩ [] "s1" (by decide) (by rfl) (by rfl) (by rfl)).1
  · exact (session_not_found_rejected [("a", [("s1", ⟨0, none⟩)]), ("b", [])] "b" 100 "fresh"
      ⟨some "s1", false, none⟩ [] "s1" (by decide) (by rfl) (by rfl) (by rfl)).2
  · exact (session_not_found_rejected [("a", [("s1", ⟨0, none⟩)]), ("b", [])] "a" 100 "fresh"
      ⟨some "deadbeef", false, none⟩ [("s1", ⟨0, none⟩)] "deadbeef" (by decide) (by rfl)
      (by rfl) (by rfl)).1

/-- The protected-split loop threads the chunk counter: the final counter
is the start plus the number of emitted chunks, and the emitted chunk
indices are consecutive from the start. -/
theorem mdSubLoop_indexes (opts : ChunkerOptions) (doc : Document) (ct : Option String)
    (sectionHeader : String) (path : List String) :
    ∀ (ts : List String) (i k : Nat),
      (mdSubLoop opts doc ct sectionHeader path i k ts).2 =
        k + (mdSubLoop opts doc ct sectionHeader path i k ts).1.length ∧
      (mdSubLoop opts doc ct sectionHeader path i k ts).1.map (fun c => c.chunk_index) =
        List.range' k (mdSubLoop opts doc ct sectionHeader path i k ts).1.length := by
  intro ts
  induction ts with
  | nil =>
    intro i k
    simp [mdSubLoop]
  | cons t rest ih =>
    intro i k
    by_cases hf : (jsTrim t).length < opts.min_chunk_size
    · simp only [mdSubLoop, if_pos hf]
      exact ih (i + 1) k
    · simp only [mdSubLoop, if_neg hf]
      obtain ⟨h1, h2⟩ := ih (i + 1) (k + 1)
      constructor
      · simp only [List.length_cons]
        omega
      · simp only [List.map_cons, List.length_cons]
        have hidx : (if ¬ path.isEmpty then
            setSectionPath (createChunk doc k
              (if 0 < i ∧ ¬ sectionHeader.isEmpty ∧ ¬ t.startsWith "#" then
                sectionHeader ++ "\n\n" ++ t else t) ct) path
          else createChunk doc k
            (if 0 < i ∧ ¬ sectionHeader.isEmpty ∧ ¬ t.startsWith "#" then
              sectionHeader ++ "\n\n" ++ t else t) ct).chunk_index = k := by
          split <;> rfl
        rw [hidx, List.range'_succ, h2]

/-- The subsection loop threads the chunk counter and yields consecutive
indices. -/
theorem mdSubsLoop_indexes (opts : ChunkerOptions) (doc : Document) (ct : Option String)
    (h2 sectionHeader : String) :
    ∀ (subs : List String) (k : Nat),
      (mdSubsLoop opts doc ct h2 sectionHeader k subs).2 =
        k + (mdSubsLoop opts doc ct h2 sectionHeader k subs).1.length ∧
      (mdSubsLoop opts doc ct h2 sectionHeader k subs).1.map (fun c => c.chunk_index) =
        List.range' k (mdSubsLoop opts doc ct h2 sectionHeader k subs).1.length := by
  intro subs
  induction subs with
  | nil =>
    intro k
    simp [mdSubsLoop]
  | cons sub rest ih =>
    intro k
    simp only [mdSubsLoop]
    obtain ⟨ha1, ha2⟩ := mdSubLoop_indexes opts doc ct sectionHeader
      ([h2, extractHeaderText sub].filter (fun s => ¬ s.isEmpty))
      (splitProtected opts.chunk_size opts.min_chunk_size sub) 0 k
    obtain ⟨hb1, hb2⟩ :=
      ih (mdSubLoop opts doc ct sectionHeader
        ([h2, extractHeaderText sub].filter (fun s => ¬ s.isEmpty)) 0 k
        (splitProtected opts.chunk_size opts.min_chunk_size sub)).2
    constructor
    · simp only [List.length_append]
      omega
    · simp only [List.map_append, List.length_append]
      rw [ha2, hb2, ha1]
      have := List.range'_append_1 k
        (mdSubLoop opts doc ct sectionHeader
          ([h2, extractHeaderText sub].filter (fun s => ¬ s.isEmpty)) 0 k
          (splitProtected opts.chunk_size opts.min_chunk_size sub)).1.length
        (mdSubsLoop opts doc ct h2 sectionHeader
          (k + (mdSubLoop opts doc ct sectionHeader
            ([h2, extractHeaderText sub].filter (fun s => ¬ s.isEmpty)) 0 k
            (splitProtected opts.chunk_size opts.min_chunk_size sub)).1.length)
          rest).1.length
      rw [this]
      congr 1
      omega

/-- One section step threads the chunk counter and yields consecutive
indices. -/
theorem mdSectionStep_indexes (opts : ChunkerOptions) (doc : Document) (ct : Option String)
    (k : Nat) (s : String) :
    (mdSectionStep opts doc ct k s).2 = k + (mdSectionStep opts doc ct k s).1.length ∧
    (mdSectionStep opts doc ct k s).1.map (fun c => c.chunk_index) =
      List.range' k (mdSectionStep opts doc ct k s).1.length := by
  unfold mdSectionStep
  by_cases hsmall : s.length ≤ opts.chunk_size
  · rw [if_pos hsmall]
    by_cases hmin : opts.min_chunk_size ≤ (jsTrim s).length
    · rw [if_pos hmin]
      refine ⟨rfl, ?_⟩
      split <;> rfl
    · rw [if_neg hmin]
      simp
  · rw [if_neg hsmall]
    exact mdSubsLoop_indexes opts doc ct (extractHeaderText s) (extractHeader s)
      (splitByHeaders 3 3 s) k

/-- The section loop threads the chunk counter and yields consecutive
indices. -/
theorem mdSectionsLoop_indexes (opts : ChunkerOptions) (doc : Document) (ct : Option String) :
    ∀ (sections : List String) (k : Nat),
      (mdSectionsLoop opts doc ct k sections).2 =
        k + (mdSectionsLoop opts doc ct k sections).1.length ∧
      (mdSectionsLoop opts doc ct k sections).1.map (fun c => c.chunk_index) =
        List.range' k (mdSectionsLoop opts doc ct k sections).1.length := by
  intro sections
  induction sections with
  | nil =>
    intro k
    simp [mdSectionsLoop]
  | cons s rest ih =>
    intro k
    simp only [mdSectionsLoop]
    obtain ⟨ha1, ha2⟩ := mdSectionStep_indexes opts doc ct k s
    obtain ⟨hb1, hb2⟩ := ih (mdSectionStep opts doc ct k s).2
    constructor
    · simp only [List.length_append]
      omega
    · simp only [List.map_append, List.length_append]
      rw [ha2, hb2, ha1]
      have := List.range'_append_1 k (mdSectionStep opts doc ct k s).1.length
        (mdSectionsLoop opts doc ct
          (k + (mdSectionStep opts doc ct k s).1.length) rest).1.length
      rw [this]
      congr 1
      omega

/-- The Markdown-style chunkDocument yields indices 0, 1, 2 and so on. -/
theorem mdLikeChunkDocument_indexes (opts : ChunkerOptions) (doc : Document)
    (ct : Option String) :
    (mdLikeChunkDocument opts doc ct).map (fun c => c.chunk_index) =
      List.range (mdLikeChunkDocument opts doc ct).length := by
  unfold mdLikeChunkDocument
  by_cases hsmall : doc.content.length ≤ opts.chunk_size
  · rw [if_pos hsmall]
    by_cases hmin : opts.min_chunk_size ≤ (jsTrim doc.content).length
    · rw [if_pos hmin]
      rfl
    · rw [if_neg hmin]
      rfl
  · rw [if_neg hsmall]
    rw [List.range_eq_range']
    exact (mdSectionsLoop_indexes opts doc ct (splitByHeaders 2 2 doc.content) 0).2

/-- The TypeDoc member grouping loop yields consecutive indices. -/
theorem tdGroupLoop_indexes (opts : ChunkerOptions) (doc : Document) (classHeader : String)
    (headerBudget : Nat) :
    ∀ (ms : List String) (k : Nat) (group : List String) (groupSize : Nat),
      (tdGroupLoop opts doc classHeader headerBudget k group groupSize ms).map
        (fun c => c.chunk_index) =
      List.range' k (tdGroupLoop opts doc classHeader headerBudget k group groupSize ms).length := by
  intro ms
  induction ms with
  | nil =>
    intro k group groupSize
    simp only [tdGroupLoop]
    split <;> rfl
  | cons m rest ih =>
    intro k group groupSize
    simp only [tdGroupLoop]
    by_cases hc : (opts.chunk_size : Int) - headerBudget < ((groupSize + m.length : Nat) : Int) ∧
        ¬ group.isEmpty
    · rw [if_pos hc]
      simp only [List.map_cons, List.length_cons]
      rw [List.range'_succ, ih (k + 1) [m] (m.length + 2)]
      rfl
    · rw [if_neg hc]
      exact ih k (group ++ [m]) (groupSize + m.length + 2)

/-- The TypeDoc size fallback loop yields consecutive indices. -/
theorem tdBySizeLoop_indexes (opts : ChunkerOptions) (doc : Document) (header : String) :
    ∀ (ts : List String) (i k : Nat),
      (tdBySizeLoop opts doc header i k ts).map (fun c => c.chunk_index) =
        List.range' k (tdBySizeLoop opts doc header i k ts).length := by
  intro ts
  induction ts with
  | nil =>
    intro i k
    simp [tdBySizeLoop]
  | cons t rest ih =>
    intro i k
    simp only [tdBySizeLoop]
    by_cases hf : (jsTrim t).length < opts.min_chunk_size
    · rw [if_pos hf]
      exact ih (i + 1) k
    · rw [if_neg hf]
      simp only [List.map_cons, List.length_cons]
      rw [List.range'_succ, ih (i + 1) (k + 1)]
      rfl

/-- The TypeDoc demo loop yields consecutive indices. -/
theorem tdDemoLoop_indexes (opts : ChunkerOptions) (doc : Document) (header title : String) :
    ∀ (ts : List String) (i k : Nat),
      (tdDemoLoop opts doc header title i k ts).map (fun c => c.chunk_index) =
        List.range' k (tdDemoLoop opts doc header title i k ts).length := by
  intro ts
  induction ts with
  | nil =>
    intro i k
    simp [tdDemoLoop]
  | cons t rest ih =>
    intro i k
    simp only [tdDemoLoop]
    by_cases hf : (jsTrim t).length < opts.min_chunk_size
    · rw [if_pos hf]
      exact ih (i + 1) k
    · rw [if_neg hf]
      simp only [List.map_cons, List.length_cons]
      rw [List.range'_succ, ih (i + 1) (k + 1)]
      congr 1
      split <;> rfl

/-- The TypeDoc chunkDocument yields indices 0, 1, 2 and so on. -/
theorem typedocChunkDocument_indexes (opts : ChunkerOptions) (doc : Document) :
    (typedocChunkDocument opts doc).map (fun c => c.chunk_index) =
      List.range (typedocChunkDocument opts doc).length := by
  unfold typedocChunkDocument
  rw [List.range_eq_range']
  split
  · unfold tdChunkApi
    by_cases hsmall : doc.content.length ≤ opts.chunk_size
    · rw [if_pos hsmall]
      rfl
    · rw [if_neg hsmall]
      dsimp only
      split
      · unfold tdChunkBySize
        exact tdBySizeLoop_indexes opts doc _ _ 0 0
      · split
        · unfold tdChunkBySize
          exact tdBySizeLoop_indexes opts doc _ _ 0 0
        · exact tdGroupLoop_indexes opts doc _ _ _ 0 [] 0
  · unfold tdChunkDemo
    by_cases hsmall : doc.content.length ≤ opts.chunk_size
    · rw [if_pos hsmall]
      dsimp only
      split <;> rfl
    · rw [if_neg hsmall]
      exact tdDemoLoop_indexes opts doc _ _ _ 0 0
  · rw [← List.range_eq_range']
    exact mdLikeChunkDocument_indexes opts doc (some "doc")

/-- The JavaDoc method grouping loop yields consecutive indices. -/
theorem jdGroupLoop_indexes (opts : ChunkerOptions) (doc : Document) (header : String) :
    ∀ (ms : List String) (k : Nat) (group : List String) (gs : Nat),
      (jdGroupLoop opts doc header k group gs ms).map (fun c => c.chunk_index) =
        List.range' k (jdGroupLoop opts doc header k group gs ms).length := by
  intro ms
  induction ms with
  | nil =>
    intro k group gs
    simp only [jdGroupLoop]
    split <;> rfl
  | cons m rest ih =>
    intro k group gs
    simp only [jdGroupLoop]
    by_cases hc : opts.chunk_size < gs + m.length ∧ ¬ group.isEmpty
    · rw [if_pos hc]
      simp only [List.map_cons, List.length_cons]
      rw [List.range'_succ, ih (k + 1) [m] m.length]
      rfl
    · rw [if_neg hc]
      exact ih k (group ++ [m]) (gs + m.length)

/-- The JavaDoc size fallback loop yields consecutive indices. -/
theorem jdBySizeLoop_indexes (opts : ChunkerOptions) (doc : Document) :
    ∀ (ts : List String) (k : Nat),
      (jdBySizeLoop opts doc k ts).map (fun c => c.chunk_index) =
        List.range' k (jdBySizeLoop opts doc k ts).length := by
  intro ts
  induction ts with
  | nil =>
    intro k
    simp [jdBySizeLoop]
  | cons t rest ih =>
    intro k
    simp only [jdBySizeLoop]
    by_cases hf : (jsTrim t).length < opts.min_chunk_size
    · rw [if_pos hf]
      exact ih k
    · rw [if_neg hf]
      simp only [List.map_cons, List.length_cons]
      rw [List.range'_succ, ih (k + 1)]
      rfl

/-- The JavaDoc demo loop yields consecutive indices. -/
theorem jdDemoLoop_indexes (opts : ChunkerOptions) (doc : Document) (header : String) :
    ∀ (ts : List String) (i k : Nat),
      (jdDemoLoop opts doc header i k ts).map (fun c => c.chunk_index) =
        List.range' k (jdDemoLoop opts doc header i k ts).length := by
  intro ts
  induction ts with
  | nil =>
    intro i k
    simp [jdDemoLoop]
  | cons t rest ih =>
    intro i k
    simp only [jdDemoLoop]
    by_cases hf : (jsTrim t).length < opts.min_chunk_size
    · rw [if_pos hf]
      exact ih (i + 1) k
    · rw [if_neg hf]
      simp only [List.map_cons, List.length_cons]
      rw [List.range'_succ, ih (i + 1) (k + 1)]
      rfl

/-- The JavaDoc docs inner loop threads the counter and yields consecutive
indices. -/
theorem jdDocsTexts_indexes (opts : ChunkerOptions) (doc : Document) :
    ∀ (ts : List String) (k : Nat),
      (jdDocsTexts opts doc k ts).2 = k + (jdDocsTexts opts doc k ts).1.length ∧
      (jdDocsTexts opts doc k ts).1.map (fun c => c.chunk_index) =
        List.range' k (jdDocsTexts opts doc k ts).1.length := by
  intro ts
  induction ts with
  | nil =>
    intro k
    simp [jdDocsTexts]
  | cons t rest ih =>
    intro k
    simp only [jdDocsTexts]
    by_cases hf : (jsTrim t).length < opts.min_chunk_size
    · rw [if_pos hf]
      exact ih k
    · rw [if_neg hf]
      obtain ⟨h1, h2⟩ := ih (k + 1)
      constructor
      · simp only [List.length_cons]
        omega
      · simp only [List.map_cons, List.length_cons]
        rw [List.range'_succ, h2]
        rfl

/-- The JavaDoc docs section loop threads the counter and yields
consecutive indices. -/
theorem jdDocsSections_indexes (opts : ChunkerOptions) (doc : Document) :
    ∀ (sections : List String) (k : Nat),
      (jdDocsSections opts doc k sections).2 =
        k + (jdDocsSections opts doc k sections).1.length ∧
      (jdDocsSections opts doc k sections).1.map (fun c => c.chunk_index) =
        List.range' k (jdDocsSections opts doc k sections).1.length := by
  intro sections
  induction sections with
  | nil =>
    intro k
    simp [jdDocsSections]
  | cons s rest ih =>
    intro k
    simp only [jdDocsSections]
    obtain ⟨ha1, ha2⟩ := jdDocsTexts_indexes opts doc
      (splitProtected opts.chunk_size opts.min_chunk_size s) k
    obtain ⟨hb1, hb2⟩ := ih (jdDocsTexts opts doc k
      (splitProtected opts.chunk_size opts.min_chunk_size s)).2
    constructor
    · simp only [List.length_append]
      omega
    · simp only [List.map_append, List.length_append]
      rw [ha2, hb2, ha1]
      have := List.range'_append_1 k
        (jdDocsTexts opts doc k (splitProtected opts.chunk_size opts.min_chunk_size s)).1.length
        (jdDocsSections opts doc
          (k + (jdDocsTexts opts doc k
            (splitProtected opts.chunk_size opts.min_chunk_size s)).1.length) rest).1.length
      rw [this]
      congr 1
      omega

/-- The JavaDoc chunkDocument yields indices 0, 1, 2 and so on. -/
theorem javadocChunkDocument_indexes (opts : ChunkerOptions) (doc : Document) :
    (javadocChunkDocument opts doc).map (fun c => c.chunk_index) =
      List.range (javadocChunkDocument opts doc).length := by
  unfold javadocChunkDocument
  rw [List.range_eq_range']
  split
  · unfold jdChunkApi
    dsimp only
    split
    · unfold jdChunkBySize
      exact jdBySizeLoop_indexes opts doc _ 0
    · split
      · unfold jdChunkBySize
        exact jdBySizeLoop_indexes opts doc _ 0
      · exact jdGroupLoop_indexes opts doc _ _ 0 [] 0
  · unfold jdChunkDemo
    by_cases hsmall : doc.content.length ≤ opts.chunk_size
    · rw [if_pos hsmall]
      rfl
    · rw [if_neg hsmall]
      exact jdDemoLoop_indexes opts doc _ _ 0 0
  · unfold jdChunkDocs
    exact (jdDocsSections_indexes opts doc (splitByHeaders 2 3 doc.content) 0).2

/-- Every chunker strategy yields indices 0, 1, 2 and so on. -/
theorem chunkDocumentOf_indexes (ty : ChunkerType) (opts : ChunkerOptions) (doc : Document) :
    (chunkDocumentOf ty opts doc).map (fun c => c.chunk_index) =
      List.range (chunkDocumentOf ty opts doc).length := by
  cases ty with
  | markdown => exact mdLikeChunkDocument_indexes opts doc none
  | typedoc => exact typedocChunkDocument_indexes opts doc
  | javadoc => exact javadocChunkDocument_indexes opts doc

/-- The metadata back-fill of chunkDocuments does not alter chunk indices
or the chunk count. -/
theorem perDocChunks_index_length (ty : ChunkerType) (opts : ChunkerOptions) (doc : Document) :
    (perDocChunks ty opts doc).map (fun c => c.chunk_index) =
      (chunkDocumentOf ty opts doc).map (fun c => c.chunk_index) ∧
    (perDocChunks ty opts doc).length = (chunkDocumentOf ty opts doc).length := by
  unfold perDocChunks
  constructor
  · rw [List.map_map, List.map_map]
    rfl
  · simp

/-- C2.  For every document processed by any of the three chunkers via
chunkDocuments, the chunk_index values of its emitted chunks are exactly
0 up to total minus one in order and without gaps, every chunk has
chunk_index below the chunk count, and total_chunks on every chunk equals
the number of chunks emitted for the document; chunkDocuments is the
per-document processing concatenated over the documents. -/
theorem chunk_index_totality (ty : ChunkerType) (opts : ChunkerOptions) (doc : Document) :
    (perDocChunks ty opts doc).map (fun c => c.chunk_index) =
      List.range (perDocChunks ty opts doc).length ∧
    (∀ c ∈ perDocChunks ty opts doc,
      c.metadata.total_chunks = some (perDocChunks ty opts doc).length ∧
      c.chunk_index < (perDocChunks ty opts doc).length) ∧
    (∀ docs : List Document,
      chunkDocuments ty opts docs = (docs.map (perDocChunks ty opts)).flatten) := by
  obtain ⟨hmap, hlen⟩ := perDocChunks_index_length ty opts doc
  have hrange : (perDocChunks ty opts doc).map (fun c => c.chunk_index) =
      List.range (perDocChunks ty opts doc).length := by
    rw [hmap, hlen]
    exact chunkDocumentOf_indexes ty opts doc
  refine ⟨hrange, ?_, fun docs => rfl⟩
  intro c hc
  constructor
  · unfold perDocChunks at hc
    rw [List.mem_map] at hc
    obtain ⟨c1, hc1, hcq⟩ := hc
    subst hcq
    show some ((chunkDocumentOf ty opts doc).map (fun c => setDocToc c
      (extractToc doc.content))).length = _
    rw [hlen]
    simp
  · have hmem : c.chunk_index ∈ (perDocChunks ty opts doc).map (fun c => c.chunk_index) :=
      List.mem_map_of_mem _ hc
    rw [hrange] at hmem
    exact List.mem_range.mp hmem

/-- C2 witness: at a concrete one-chunk document the indices are the range
and the single chunk carries total_chunks one and index below one. -/
theorem chunk_index_totality_witness :
    (perDocChunks ChunkerType.markdown ⟨3000, 50⟩
        ⟨"d9", String.mk (List.replicate 60 'a'), "p", none⟩).map (fun c => c.chunk_index) =
      List.range (perDocChunks ChunkerType.markdown ⟨3000, 50⟩
        ⟨"d9", String.mk (List.replicate 60 'a'), "p", none⟩).length ∧
    ((setTotalChunks (setDocToc (createChunk
        ⟨"d9", String.mk (List.replicate 60 'a'), "p", none⟩ 0
        (String.mk (List.replicate 60 'a')) none) "") 1).metadata.total_chunks =
      some (perDocChunks ChunkerType.markdown ⟨3000, 50⟩
        ⟨"d9", String.mk (List.replicate 60 'a'), "p", none⟩).length ∧
     (setTotalChunks (setDocToc (createChunk
        ⟨"d9", String.mk (List.replicate 60 'a'), "p", none⟩ 0
        (String.mk (List.replicate 60 'a')) none) "") 1).chunk_index <
      (perDocChunks ChunkerType.markdown ⟨3000, 50⟩
        ⟨"d9", String.mk (List.replicate 60 'a'), "p", none⟩).length) :=
  ⟨(chunk_index_totality ChunkerType.markdown ⟨3000, 50⟩
      ⟨"d9", String.mk (List.replicate 60 'a'), "p", none⟩).1,
   (chunk_index_totality ChunkerType.markdown ⟨3000, 50⟩
      ⟨"d9", String.mk (List.replicate 60 'a'), "p", none⟩).2.1
    (setTotalChunks (setDocToc (createChunk
      ⟨"d9", String.mk (List.replicate 60 'a'), "p", none⟩ 0
      (String.mk (List.replicate 60 'a')) none) "") 1)
    (by decide)⟩

/-- C9 counterexample: a non-empty document whose content trims below
min_chunk_size yields zero chunks from the Markdown chunker, also through
chunkDocuments; the sole candidate chunk is discarded, not kept. -/
theorem small_doc_below_min_discarded :
    markdownChunkDocument ⟨3000, 50⟩ ⟨"d1", "hi", "p", none⟩ = [] ∧
    chunkDocuments ChunkerType.markdown ⟨3000, 50⟩ [⟨"d1", "hi", "p", none⟩] = [] ∧
    ("hi" : String) ≠ "" ∧ (jsTrim "hi").length < 50 ∧ "hi".length ≤ 3000 := by
  refine ⟨rfl, rfl, ?_, ?_, ?_⟩ <;> decide

/-- C9 amended.  In the Markdown chunker a document that fits in one chunk
is emitted as that single chunk only when its trimmed length reaches
min_chunk_size; below the minimum the sole chunk is discarded and the
document yields zero chunks — there is no only-chunk exception.  (The
TypeDoc and JavaDoc api and demo small-document paths emit the whole
document without the minimum check, and larger documents drop every
candidate chunk trimming below the minimum.) -/
theorem markdown_small_doc_min_filter (opts : ChunkerOptions) (doc : Document)
    (hsmall : doc.content.length ≤ opts.chunk_size) :
    ((jsTrim doc.content).length < opts.min_chunk_size →
      markdownChunkDocument opts doc = []) ∧
    (opts.min_chunk_size ≤ (jsTrim doc.content).length →
      markdownChunkDocument opts doc = [createChunk doc 0 doc.content none]) := by
  unfold markdownChunkDocument mdLikeChunkDocument
  rw [if_pos hsmall]
  constructor
  · intro h
    rw [if_neg (by omega)]
  · intro h
    rw [if_pos h]

/-- C9 amended witness: a tiny document is dropped, a sixty character
document is kept whole, both through the small-document branch. -/
theorem markdown_small_doc_min_filter_witness :
    markdownChunkDocument ⟨3000, 50⟩ ⟨"d2", "tiny", "p", none⟩ = [] ∧
    markdownChunkDocument ⟨3000, 50⟩ ⟨"d3", String.mk (List.replicate 60 'a'), "p", none⟩ =
      [createChunk ⟨"d3", String.mk (List.replicate 60 'a'), "p", none⟩ 0
        (String.mk (List.replicate 60 'a')) none] :=
  ⟨(markdown_small_doc_min_filter ⟨3000, 50⟩ ⟨"d2", "tiny", "p", none⟩ (by decide)).1
      (by decide),
   (markdown_small_doc_min_filter ⟨3000, 50⟩
      ⟨"d3", String.mk (List.replicate 60 'a'), "p", none⟩ (by decide)).2 (by decide)⟩

end DocMcp
